import Mathlib

set_option maxHeartbeats 1000000
set_option maxRecDepth 100000

/-!
Formal model of the jal-kicad-pcm publishing scripts
(`scripts/build_index.py`, `scripts/update_resources.py`).

Python strings are modelled as `String` / `List Char` (code-point
sequences), machine integers as `Int` / `Nat`, dictionaries as ordered
association lists (Python 3.7+ dicts preserve insertion order), and
fallible operations as `Option` / `Except`.
-/

/-! ## Glob-to-regex pipeline (build_index.py line 118)

`rx = re.compile("^" + re.escape(glob_pat).replace(r"\*", ".*").replace(r"\?", ".") + "$")`
with matching by `rx.match(name)`.
-/

/-- The set of characters escaped by Python 3.7+ `re.escape`
(`() [] \x7b \x7d ? * + - | ^ $ \ . & ~ #` plus space, tab, newline,
carriage return, vertical tab and form feed). -/
def reSpecial : List Char :=
  ['(', ')', '[', ']', Char.ofNat 123, Char.ofNat 125, '?', '*', '+', '-', '|',
   '^', '$', '\\', '.', '&', '~', '#', ' ', '\t', '\n', '\r',
   Char.ofNat 11, Char.ofNat 12]

/-- `re.escape` applied to a single character. -/
def reEscapeChar (c : Char) : List Char :=
  if c ∈ reSpecial then ['\\', c] else [c]

/-- `re.escape` over a whole pattern. -/
def reEscape (p : List Char) : List Char := p.flatMap reEscapeChar

/-- Python `str.replace needle rep` for a nonempty needle: scan left to
right, replace each leftmost non-overlapping occurrence, continue after
the replaced region. -/
def replaceStr (pat rep : List Char) (s : List Char) : List Char :=
  match s with
  | [] => []
  | c :: cs =>
    if pat.isPrefixOf (c :: cs) ∧ pat ≠ [] then
      rep ++ replaceStr pat rep ((c :: cs).drop pat.length)
    else
      c :: replaceStr pat rep cs
termination_by s.length
decreasing_by
  · rename_i h
    obtain ⟨h1, h2⟩ := h
    have hlen : 1 ≤ pat.length := by
      cases pat with
      | nil => exact absurd rfl h2
      | cons a as => simp
    simp only [List.length_drop, List.length_cons]
    omega
  · simp

/-- The regex source text built at `build_index.py:118`:
escape the glob, then rewrite the escaped star to `.*` and the escaped
question mark to `.`. -/
def globRegexBody (p : List Char) : List Char :=
  replaceStr ['\\', '?'] ['.'] (replaceStr ['\\', '*'] ['.', '*'] (reEscape p))

/-- Tokens of the restricted regex fragment the pipeline can emit:
escaped (or plain) literal characters, `.` and `.*`. -/
inductive RTok where
  | lit (c : Char)
  | dot
  | star
deriving DecidableEq, Repr

/-- Reading the produced regex text back as a token sequence: a
backslash escapes the next character to a literal, `.` followed by `*`
is `.*`, a lone `.` is the any-character wildcard, and every other
character stands for itself. -/
def tokenize : List Char → List RTok
  | [] => []
  | c :: [] => if c = '.' then [.dot] else if c = '\\' then [] else [.lit c]
  | c :: c2 :: rest =>
    if c = '\\' then .lit c2 :: tokenize rest
    else if c = '.' then
      (if c2 = '*' then .star :: tokenize rest else .dot :: tokenize (c2 :: rest))
    else .lit c :: tokenize (c2 :: rest)

/-- Python `re` matching of the anchored pattern `^toks$` against a
string, restricted to this fragment: `.` matches any character except
newline (no DOTALL), `.*` any run of non-newline characters, and the
final `$` succeeds at the end of the string or just before a single
trailing newline. -/
def rmatch (toks : List RTok) (s : List Char) : Bool :=
  match toks, s with
  | [], _ => s == [] || s == ['\n']
  | .lit c :: ts, [] =>
    -- silence unused-variable linting by mentioning the binders
    let _ := c; let _ := ts; false
  | .lit c :: ts, x :: xs => x == c && rmatch ts xs
  | .dot :: ts, [] => let _ := ts; false
  | .dot :: ts, x :: xs => (x != '\n') && rmatch ts xs
  | .star :: ts, [] => rmatch ts []
  | .star :: ts, x :: xs => rmatch ts (x :: xs) || ((x != '\n') && rmatch (.star :: ts) xs)
termination_by (s.length, toks.length)
decreasing_by all_goals (simp_all; omega)

/-- The matcher derived by the release scanner: compile the glob to the
anchored regex of `build_index.py:118` and run Python `re` matching. -/
def derivedMatch (p f : List Char) : Bool :=
  rmatch (tokenize (globRegexBody p)) f

/-- Shell-glob semantics restricted to `*` and `?` (no character
classes): `*` matches any run of characters, `?` any single character,
everything else itself; the whole name must be consumed. This is the
specification-side definition the derived matcher is compared with. -/
def globMatch : List Char → List Char → Bool
  | [], s => s.isEmpty
  | c :: ps, [] => if c = '*' then globMatch ps [] else false
  | c :: ps, x :: xs =>
    if c = '*' then globMatch ps (x :: xs) || globMatch (c :: ps) xs
    else (if c = '?' then true else x == c) && globMatch ps xs
termination_by p s => (s.length, p.length)

example : derivedMatch "*.zip".toList "foo.zip".toList = true := by
  simp [derivedMatch, globRegexBody, reEscape, reEscapeChar, reSpecial, replaceStr, tokenize, rmatch]
example : derivedMatch "*.zip".toList "foo.tar".toList = false := by
  simp [derivedMatch, globRegexBody, reEscape, reEscapeChar, reSpecial, replaceStr, tokenize, rmatch]
example : derivedMatch "a+b".toList "a+b".toList = true := by
  simp [derivedMatch, globRegexBody, reEscape, reEscapeChar, reSpecial, replaceStr, tokenize, rmatch]
example : derivedMatch "a+b".toList "aab".toList = false := by
  simp [derivedMatch, globRegexBody, reEscape, reEscapeChar, reSpecial, replaceStr, tokenize, rmatch]
example : globMatch "*.zip".toList "foo.zip".toList = true := by simp [globMatch]
example : derivedMatch "a".toList ['a', '\n'] = true := by
  simp [derivedMatch, globRegexBody, reEscape, reEscapeChar, reSpecial, replaceStr, tokenize, rmatch]
example : globMatch "a".toList ['a', '\n'] = false := by simp [globMatch]

/-! ### Correctness of the glob-to-regex pipeline -/

/-- Per-character effect of the first replace (`\*` to `.*`). -/
def esc1 (c : Char) : List Char :=
  if c = '*' then ['.', '*'] else reEscapeChar c

/-- Per-character effect of both replaces (`\*` to `.*`, `\?` to `.`). -/
def esc2 (c : Char) : List Char :=
  if c = '*' then ['.', '*'] else if c = '?' then ['.'] else reEscapeChar c

/-- Direct per-character translation of a glob into regex tokens. -/
def globTok (c : Char) : RTok :=
  if c = '*' then .star else if c = '?' then .dot else .lit c

lemma replaceStr_nil (pat rep : List Char) : replaceStr pat rep [] = [] := by
  simp [replaceStr]

lemma replaceStr_cons_pos {pat : List Char} (rep : List Char) {c : Char} {cs : List Char}
    (h : pat.isPrefixOf (c :: cs)) (h2 : pat ≠ []) :
    replaceStr pat rep (c :: cs) = rep ++ replaceStr pat rep ((c :: cs).drop pat.length) := by
  rw [replaceStr]
  simp [h, h2]

lemma replaceStr_cons_neg {pat : List Char} (rep : List Char) {c : Char} {cs : List Char}
    (h : ¬ pat.isPrefixOf (c :: cs)) :
    replaceStr pat rep (c :: cs) = c :: replaceStr pat rep cs := by
  rw [replaceStr]
  simp [h]

/-- One replace step when the two-character needle matches here. -/
lemma replaceStr_step_pos (a b : Char) (rep : List Char) (l : List Char) :
    replaceStr [a, b] rep (a :: b :: l) = rep ++ replaceStr [a, b] rep l := by
  rw [replaceStr_cons_pos rep (by simp [List.isPrefixOf]) (by simp)]
  simp

/-- One replace step when the first needle character mismatches. -/
lemma replaceStr_step_neg1 (a b c : Char) (rep : List Char) (l : List Char) (h : a ≠ c) :
    replaceStr [a, b] rep (c :: l) = c :: replaceStr [a, b] rep l := by
  rw [replaceStr_cons_neg rep (by simp [List.isPrefixOf, h])]

/-- One replace step when the second needle character mismatches. -/
lemma replaceStr_step_neg2 (a b d : Char) (rep : List Char) (l : List Char) (h : b ≠ d) :
    replaceStr [a, b] rep (a :: d :: l) = a :: replaceStr [a, b] rep (d :: l) := by
  rw [replaceStr_cons_neg rep (by simp [List.isPrefixOf, h])]

/-- One replace step when the rest of the string does not continue the
needle. -/
lemma replaceStr_step_negH (a b : Char) (rep : List Char) (l : List Char)
    (h : List.isPrefixOf [b] l = false) :
    replaceStr [a, b] rep (a :: l) = a :: replaceStr [a, b] rep l := by
  rw [replaceStr_cons_neg rep (by simp [List.isPrefixOf, h])]

lemma reEscape_head_ne_star (p : List Char) :
    List.isPrefixOf ['*'] (reEscape p) = false := by
  cases p with
  | nil => simp [reEscape, List.isPrefixOf]
  | cons c p' =>
    simp only [reEscape, List.flatMap_cons, reEscapeChar]
    by_cases hs : c ∈ reSpecial
    · simp [hs, List.isPrefixOf]
    · have hc : c ≠ '*' := fun h => hs (h ▸ (by decide : '*' ∈ reSpecial))
      simp [hs, List.isPrefixOf, Ne.symm hc]

lemma flatMap_esc1_head_ne_qm (p : List Char) :
    List.isPrefixOf ['?'] (p.flatMap esc1) = false := by
  cases p with
  | nil => simp [List.isPrefixOf]
  | cons c p' =>
    simp only [List.flatMap_cons, esc1, reEscapeChar]
    by_cases h1 : c = '*'
    · simp [h1, List.isPrefixOf]
    · by_cases hs : c ∈ reSpecial
      · simp [h1, hs, List.isPrefixOf]
      · have hc : c ≠ '?' := fun h => hs (h ▸ (by decide : '?' ∈ reSpecial))
        simp [h1, hs, List.isPrefixOf, Ne.symm hc]

lemma esc2_ne_nil (c : Char) : esc2 c ≠ [] := by
  simp only [esc2, reEscapeChar]
  by_cases h1 : c = '*' <;> by_cases h2 : c = '?' <;> by_cases hs : c ∈ reSpecial <;>
    simp [h1, h2, hs]

lemma flatMap_esc2_head_ne_star {p : List Char} {r0 : Char} {rest : List Char}
    (h : p.flatMap esc2 = r0 :: rest) : r0 ≠ '*' := by
  cases p with
  | nil => simp at h
  | cons c p' =>
    simp only [List.flatMap_cons] at h
    by_cases h1 : c = '*'
    · simp [esc2, h1] at h
      intro hr; rw [← h.1] at hr; exact absurd hr (by decide)
    · by_cases h2 : c = '?'
      · simp [esc2, h1, h2] at h
        intro hr; rw [← h.1] at hr; exact absurd hr (by decide)
      · by_cases hs : c ∈ reSpecial
        · simp [esc2, reEscapeChar, h1, h2, hs] at h
          intro hr; rw [← h.1] at hr; exact absurd hr (by decide)
        · simp [esc2, reEscapeChar, h1, h2, hs] at h
          intro hr
          rw [hr] at h
          exact hs (h.1 ▸ (by decide : '*' ∈ reSpecial))

/-- Step one of the pipeline: replacing the escaped star in the escaped
glob rewrites exactly the escape pairs coming from `*`. -/
lemma replace_star_reEscape (p : List Char) :
    replaceStr ['\\', '*'] ['.', '*'] (reEscape p) = p.flatMap esc1 := by
  induction p with
  | nil => simp [reEscape, replaceStr_nil]
  | cons c p' ih =>
    have hre : reEscape (c :: p') = reEscapeChar c ++ reEscape p' := by
      simp [reEscape]
    rw [hre, List.flatMap_cons]
    by_cases h1 : c = '*'
    · subst h1
      have hesc : reEscapeChar '*' = ['\\', '*'] := by
        simp [reEscapeChar, (by decide : '*' ∈ reSpecial)]
      rw [hesc]
      simp only [List.cons_append, List.nil_append]
      rw [replaceStr_step_pos, ih]
      simp [esc1]
    · by_cases hb : c = '\\'
      · subst hb
        have hesc : reEscapeChar '\\' = ['\\', '\\'] := by
          simp [reEscapeChar, (by decide : '\\' ∈ reSpecial)]
        rw [hesc]
        simp only [List.cons_append, List.nil_append]
        rw [replaceStr_step_neg2 _ _ _ _ _ (by decide)]
        rw [replaceStr_step_negH _ _ _ _ (reEscape_head_ne_star p')]
        rw [ih]
        simp [esc1, reEscapeChar, (by decide : '\\' ∈ reSpecial)]
      · by_cases hs : c ∈ reSpecial
        · have hesc : reEscapeChar c = ['\\', c] := by simp [reEscapeChar, hs]
          rw [hesc]
          simp only [List.cons_append, List.nil_append]
          rw [replaceStr_step_neg2 _ _ _ _ _ (Ne.symm h1)]
          rw [replaceStr_step_neg1 _ _ _ _ _ (Ne.symm hb)]
          rw [ih]
          simp [esc1, h1, reEscapeChar, hs]
        · have hesc : reEscapeChar c = [c] := by simp [reEscapeChar, hs]
          rw [hesc]
          simp only [List.singleton_append]
          rw [replaceStr_step_neg1 _ _ _ _ _ (Ne.symm hb)]
          rw [ih]
          simp [esc1, h1, reEscapeChar, hs]

/-- Step two of the pipeline: replacing the escaped question mark in the
output of step one rewrites exactly the escape pairs coming from `?`. -/
lemma replace_qm_esc1 (p : List Char) :
    replaceStr ['\\', '?'] ['.'] (p.flatMap esc1) = p.flatMap esc2 := by
  induction p with
  | nil => simp [replaceStr_nil]
  | cons c p' ih =>
    simp only [List.flatMap_cons]
    by_cases h1 : c = '*'
    · subst h1
      have hesc : esc1 '*' = ['.', '*'] := by simp [esc1]
      rw [hesc]
      simp only [List.cons_append, List.nil_append]
      rw [replaceStr_step_neg1 _ _ _ _ _ (by decide)]
      rw [replaceStr_step_neg1 _ _ _ _ _ (by decide)]
      rw [ih]
      simp [esc2]
    · by_cases h2 : c = '?'
      · subst h2
        have hesc : esc1 '?' = ['\\', '?'] := by
          simp [esc1, reEscapeChar, (by decide : '?' ∈ reSpecial)]
        rw [hesc]
        simp only [List.cons_append, List.nil_append]
        rw [replaceStr_step_pos, ih]
        simp [esc2]
      · by_cases hb : c = '\\'
        · subst hb
          have hesc : esc1 '\\' = ['\\', '\\'] := by
            simp [esc1, reEscapeChar, (by decide : '\\' ∈ reSpecial)]
          rw [hesc]
          simp only [List.cons_append, List.nil_append]
          rw [replaceStr_step_neg2 _ _ _ _ _ (by decide)]
          rw [replaceStr_step_negH _ _ _ _ (flatMap_esc1_head_ne_qm p')]
          rw [ih]
          simp [esc2, esc1, reEscapeChar, (by decide : '\\' ∈ reSpecial)]
        · by_cases hs : c ∈ reSpecial
          · have hesc : esc1 c = ['\\', c] := by simp [esc1, reEscapeChar, h1, hs]
            rw [hesc]
            simp only [List.cons_append, List.nil_append]
            rw [replaceStr_step_neg2 _ _ _ _ _ (Ne.symm h2)]
            rw [replaceStr_step_neg1 _ _ _ _ _ (Ne.symm hb)]
            rw [ih]
            simp [esc2, esc1, h1, h2, reEscapeChar, hs]
          · have hesc : esc1 c = [c] := by simp [esc1, reEscapeChar, h1, hs]
            rw [hesc]
            simp only [List.singleton_append]
            rw [replaceStr_step_neg1 _ _ _ _ _ (Ne.symm hb)]
            rw [ih]
            simp [esc2, esc1, h1, h2, reEscapeChar, hs]

lemma tokenize_two (c c2 : Char) (rest : List Char) :
    tokenize (c :: c2 :: rest) =
      (if c = '\\' then .lit c2 :: tokenize rest
       else if c = '.' then
         (if c2 = '*' then .star :: tokenize rest else .dot :: tokenize (c2 :: rest))
       else .lit c :: tokenize (c2 :: rest)) := rfl

lemma globTok_star : globTok '*' = .star := rfl

lemma globTok_qm : globTok '?' = .dot := rfl

/-- Step three: reading the rewritten regex text as tokens recovers the
direct per-character translation of the glob. -/
lemma tokenize_flatMap_esc2 (p : List Char) :
    tokenize (p.flatMap esc2) = p.map globTok := by
  induction p with
  | nil => simp [tokenize]
  | cons c p' ih =>
    simp only [List.flatMap_cons, List.map_cons]
    by_cases h1 : c = '*'
    · subst h1
      simp only [esc2, if_pos rfl, List.cons_append]
      simp [tokenize, globTok, ih]
    · by_cases h2 : c = '?'
      · subst h2
        have hesc : esc2 '?' = ['.'] := by simp [esc2]
        rw [hesc]
        simp only [List.singleton_append]
        cases hp : p'.flatMap esc2 with
        | nil =>
          cases p' with
          | nil => simp [tokenize, globTok]
          | cons d p'' =>
            exfalso
            simp only [List.flatMap_cons] at hp
            exact esc2_ne_nil d (List.append_eq_nil.mp hp).1
        | cons r0 rest =>
          have hr0 : r0 ≠ '*' := flatMap_esc2_head_ne_star hp
          rw [tokenize_two]
          rw [if_neg (show ¬ ('.' : Char) = '\\' by decide)]
          rw [if_pos (show ('.' : Char) = '.' from rfl)]
          rw [if_neg hr0]
          rw [← hp, ih]
          simp [globTok]
      · by_cases hs : c ∈ reSpecial
        · have hesc : esc2 c = ['\\', c] := by simp [esc2, reEscapeChar, h1, h2, hs]
          rw [hesc]
          simp [tokenize, globTok, h1, h2, ih]
        · have hesc : esc2 c = [c] := by simp [esc2, reEscapeChar, h1, h2, hs]
          rw [hesc]
          have hcb : c ≠ '\\' := fun h => hs (h ▸ (by decide : '\\' ∈ reSpecial))
          have hcd : c ≠ '.' := fun h => hs (h ▸ (by decide : '.' ∈ reSpecial))
          cases hp : p'.flatMap esc2 with
          | nil =>
            cases p' with
            | nil => simp [tokenize, globTok, hcb, hcd, h1, h2]
            | cons d p'' =>
              exfalso
              simp only [List.flatMap_cons] at hp
              exact esc2_ne_nil d (List.append_eq_nil.mp hp).1
          | cons r0 rest =>
            simp only [List.singleton_append, hp]
            simp only [tokenize, if_neg hcb, if_neg hcd]
            rw [← hp, ih]
            simp [globTok, h1, h2]

lemma rmatch_nil_toks (s : List Char) : rmatch [] s = (s == [] || s == ['\n']) := by
  rw [rmatch.eq_def]

lemma rmatch_lit_cons (c : Char) (ts : List RTok) (x : Char) (xs : List Char) :
    rmatch (.lit c :: ts) (x :: xs) = (x == c && rmatch ts xs) := by
  rw [rmatch.eq_def]

lemma rmatch_lit_nil (c : Char) (ts : List RTok) : rmatch (.lit c :: ts) [] = false := by
  rw [rmatch.eq_def]

lemma rmatch_dot_cons (ts : List RTok) (x : Char) (xs : List Char) :
    rmatch (.dot :: ts) (x :: xs) = ((x != '\n') && rmatch ts xs) := by
  rw [rmatch.eq_def]

lemma rmatch_dot_nil (ts : List RTok) : rmatch (.dot :: ts) [] = false := by
  rw [rmatch.eq_def]

lemma rmatch_star_nil (ts : List RTok) : rmatch (.star :: ts) [] = rmatch ts [] := by
  rw [rmatch.eq_def]

lemma rmatch_star_cons (ts : List RTok) (x : Char) (xs : List Char) :
    rmatch (.star :: ts) (x :: xs)
      = (rmatch ts (x :: xs) || ((x != '\n') && rmatch (.star :: ts) xs)) := by
  rw [rmatch.eq_def]

lemma globMatch_nil (s : List Char) : globMatch [] s = s.isEmpty := by
  rw [globMatch.eq_def]

lemma globMatch_cons_nil (c : Char) (ps : List Char) :
    globMatch (c :: ps) [] = (if c = '*' then globMatch ps [] else false) := by
  rw [globMatch.eq_def]

lemma globMatch_cons_cons (c : Char) (ps : List Char) (x : Char) (xs : List Char) :
    globMatch (c :: ps) (x :: xs)
      = (if c = '*' then globMatch ps (x :: xs) || globMatch (c :: ps) xs
         else (if c = '?' then true else x == c) && globMatch ps xs) := by
  rw [globMatch.eq_def]

/-- Step four: on names without a newline, the Python regex matcher over
the translated tokens agrees with shell-glob matching. -/
lemma rmatch_map_globTok :
    ∀ (f : List Char), '\n' ∉ f → ∀ (p : List Char),
      rmatch (p.map globTok) f = globMatch p f := by
  intro f
  induction f with
  | nil =>
    intro _ p
    induction p with
    | nil => simp [rmatch_nil_toks, globMatch_nil]
    | cons c ps ihp =>
      by_cases h1 : c = '*'
      · subst h1
        simp only [List.map_cons, globTok_star]
        rw [rmatch_star_nil, globMatch_cons_nil, if_pos rfl]
        exact ihp
      · by_cases h2 : c = '?'
        · subst h2
          simp only [List.map_cons, globTok_qm]
          rw [rmatch_dot_nil, globMatch_cons_nil, if_neg h1]
        · simp only [List.map_cons, globTok, if_neg h1, if_neg h2]
          rw [rmatch_lit_nil, globMatch_cons_nil, if_neg h1]
  | cons x xs ihf =>
    intro h p
    have hx : x ≠ '\n' := fun hc => h (hc ▸ List.mem_cons_self x xs)
    have hxs : '\n' ∉ xs := fun hc => h (List.mem_cons_of_mem x hc)
    induction p with
    | nil =>
      simp only [List.map_nil]
      rw [rmatch_nil_toks, globMatch_nil]
      simp [hx]
    | cons c ps ihp =>
      by_cases h1 : c = '*'
      · subst h1
        have hstep := ihf hxs ('*' :: ps)
        simp only [List.map_cons, globTok_star] at hstep
        simp only [List.map_cons, globTok_star]
        rw [rmatch_star_cons, ihp, hstep, globMatch_cons_cons, if_pos rfl]
        have hxb : (x != '\n') = true := by simp [bne_iff_ne, hx]
        rw [hxb]
        simp
      · by_cases h2 : c = '?'
        · subst h2
          simp only [List.map_cons, globTok_qm]
          rw [rmatch_dot_cons, ihf hxs ps, globMatch_cons_cons, if_neg h1, if_pos rfl]
          have hxb : (x != '\n') = true := by simp [bne_iff_ne, hx]
          rw [hxb]
        · simp only [List.map_cons, globTok, if_neg h1, if_neg h2]
          rw [rmatch_lit_cons, ihf hxs ps, globMatch_cons_cons, if_neg h1, if_neg h2]

/-- C1 (corrected): for every glob pattern and every filename that does
not contain a newline character, the matcher derived by the release
scanner (`build_index.py:118`) accepts the filename exactly when the
filename matches the pattern under shell-glob semantics restricted to
`*` and `?`. The newline restriction is forced by Python `re`
semantics: `.` does not match a newline and `$` also matches just
before a trailing newline. -/
theorem derivedMatch_agrees_with_glob_on_newline_free_names
    (p f : List Char) (h : '\n' ∉ f) : derivedMatch p f = globMatch p f := by
  unfold derivedMatch globRegexBody
  rw [replace_star_reEscape, replace_qm_esc1, tokenize_flatMap_esc2]
  exact rmatch_map_globTok f h p

/-- C1 counterexample: at glob pattern `a` and filename `a` followed by
a newline, the derived matcher accepts (Python `$` matches before a
trailing newline) while shell-glob matching rejects, so the claimed
unrestricted equivalence is false at this concrete input. -/
theorem derivedMatch_claim_counterexample :
    derivedMatch ['a'] ['a', '\n'] = true ∧ globMatch ['a'] ['a', '\n'] = false := by
  constructor
  · simp [derivedMatch, globRegexBody, reEscape, reEscapeChar, reSpecial, replaceStr,
      tokenize, rmatch]
  · simp [globMatch]

/-- C1 witness: the amended equivalence applied at the concrete pattern
`*.zip` and filename `foo.zip`. -/
theorem derivedMatch_agrees_witness :
    '\n' ∉ "foo.zip".toList
      ∧ derivedMatch "*.zip".toList "foo.zip".toList
          = globMatch "*.zip".toList "foo.zip".toList :=
  ⟨by decide, derivedMatch_agrees_with_glob_on_newline_free_names _ _ (by decide)⟩

/-! ## JSON values and the tolerant manifest parser (build_index.py lines 43-56) -/

/-- JSON values as handled by `json.loads`, restricted to the fragment
this model covers: numbers are integers (floating point is outside the
model) and string escapes cover the single-character escapes (no
`\uXXXX`). Strings are code-point lists. -/
inductive JVal where
  | jnull
  | jbool (b : Bool)
  | jint (n : Int)
  | jstr (s : List Char)
  | jarr (xs : List JVal)
  | jobj (ms : List (List Char × JVal))

/-- Python truthiness of a parsed JSON value. -/
def pyTruthy : JVal → Bool
  | .jnull => false
  | .jbool b => b
  | .jint n => n != 0
  | .jstr s => !s.isEmpty
  | .jarr xs => !xs.isEmpty
  | .jobj ms => !ms.isEmpty

/-- Whitespace characters stripped by Python `str.strip`, restricted to
ASCII. -/
def isPyWs (c : Char) : Bool :=
  c = ' ' || c = '\t' || c = '\n' || c = '\r' || c = Char.ofNat 11 || c = Char.ofNat 12

/-- Numeric value of a list of decimal digits. -/
def digitsVal (l : List Char) : Int :=
  l.foldl (fun a c => a * 10 + ((c.toNat : Int) - 48)) 0

/-- Python `int()` on a string: optional surrounding whitespace, an
optional sign, then one or more decimal digits (digit-group underscores
are outside the model). -/
def parseIntString (s : List Char) : Option Int :=
  let t := ((s.dropWhile isPyWs).reverse.dropWhile isPyWs).reverse
  let neg := t.headD ' ' = '-'
  let t1 := if t.headD ' ' = '-' ∨ t.headD ' ' = '+' then t.tail else t
  if t1 ≠ [] ∧ t1.all Char.isDigit then
    some (if neg then -(digitsVal t1) else digitsVal t1)
  else none

/-- Python `int()` applied to a JSON value: integers pass through,
booleans become 0/1, strings are parsed as decimal numerals; `None`,
lists and objects raise (`none` here). -/
def pyToInt : JVal → Option Int
  | .jint n => some n
  | .jbool b => some (if b then 1 else 0)
  | .jstr s => parseIntString s
  | _ => none

/-- JSON inter-token whitespace accepted by `json.loads`. -/
def isJsonWs (c : Char) : Bool :=
  c = ' ' || c = '\t' || c = '\n' || c = '\r'

/-- Skip inter-token whitespace. -/
def skipWs (s : List Char) : List Char := s.dropWhile isJsonWs

/-- Single-character JSON string escapes. -/
def unescape (c : Char) : Option Char :=
  if c = '"' then some '"'
  else if c = '\\' then some '\\'
  else if c = '/' then some '/'
  else if c = 'b' then some (Char.ofNat 8)
  else if c = 'f' then some (Char.ofNat 12)
  else if c = 'n' then some '\n'
  else if c = 'r' then some '\r'
  else if c = 't' then some '\t'
  else none

mutual

/-- Parse the body of a JSON string after the opening quote, returning
the decoded content and the rest of the input; raw control characters
are rejected as in strict `json.loads`. -/
def parseStringBody : List Char → Option (List Char × List Char)
  | [] => none
  | c :: rest =>
    if c = '"' then some ([], rest)
    else if c = '\\' then parseStringEsc rest
    else if c.val < 32 then none
    else (parseStringBody rest).map fun pr => (c :: pr.1, pr.2)

/-- Continue a string body after a backslash. -/
def parseStringEsc : List Char → Option (List Char × List Char)
  | [] => none
  | e :: rest2 =>
    (unescape e).bind fun u =>
      (parseStringBody rest2).map fun pr => (u :: pr.1, pr.2)

end

/-- Parse a JSON integer token: optional minus, digits with no leading
zero, and no fraction or exponent (floats are outside the model). -/
def parseIntTok (s : List Char) : Option (Int × List Char) :=
  let neg := s.headD ' ' = '-'
  let s1 := if neg then s.tail else s
  let ds := s1.takeWhile Char.isDigit
  let rest := s1.dropWhile Char.isDigit
  if ds = [] then none
  else if ds.length > 1 ∧ ds.headD '0' = '0' then none
  else if rest.headD ' ' = '.' ∨ rest.headD ' ' = 'e' ∨ rest.headD ' ' = 'E' then none
  else some ((if neg then -(digitsVal ds) else digitsVal ds), rest)

mutual

/-- Strict JSON value parser (model of `json.loads`), fuelled by input
length: parse one value and return it with the remaining input. -/
def parseVal : Nat → List Char → Option (JVal × List Char)
  | 0, _ => none
  | fuel + 1, s0 =>
    match skipWs s0 with
    | [] => none
    | c :: r =>
      if c = 'n' then
        if r.take 3 = ['u', 'l', 'l'] then some (.jnull, r.drop 3) else none
      else if c = 't' then
        if r.take 3 = ['r', 'u', 'e'] then some (.jbool true, r.drop 3) else none
      else if c = 'f' then
        if r.take 4 = ['a', 'l', 's', 'e'] then some (.jbool false, r.drop 4) else none
      else if c = '"' then
        (parseStringBody r).map fun pr => (.jstr pr.1, pr.2)
      else if c = Char.ofNat 123 then
        if (skipWs r).headD ' ' = Char.ofNat 125 then some (.jobj [], (skipWs r).tail)
        else (parseMembers fuel r).map fun pr => (.jobj pr.1, pr.2)
      else if c = '[' then
        if (skipWs r).headD ' ' = ']' then some (.jarr [], (skipWs r).tail)
        else (parseItems fuel r).map fun pr => (.jarr pr.1, pr.2)
      else (parseIntTok (c :: r)).map fun pr => (.jint pr.1, pr.2)

/-- Parse one or more `"key": value` members followed by `,` or the
closing brace. -/
def parseMembers : Nat → List Char → Option (List (List Char × JVal) × List Char)
  | 0, _ => none
  | fuel + 1, s0 =>
    match skipWs s0 with
    | [] => none
    | c :: r =>
      if c = '"' then
        (parseStringBody r).bind fun pk =>
          match skipWs pk.2 with
          | [] => none
          | c2 :: r2 =>
            if c2 = ':' then
              (parseVal fuel r2).bind fun pv =>
                match skipWs pv.2 with
                | [] => none
                | c3 :: r3 =>
                  if c3 = ',' then
                    (parseMembers fuel r3).map fun pm => ((pk.1, pv.1) :: pm.1, pm.2)
                  else if c3 = Char.ofNat 125 then some ([(pk.1, pv.1)], r3)
                  else none
            else none
      else none

/-- Parse one or more array items followed by `,` or the closing
bracket. -/
def parseItems : Nat → List Char → Option (List JVal × List Char)
  | 0, _ => none
  | fuel + 1, s0 =>
    (parseVal fuel s0).bind fun pv =>
      match skipWs pv.2 with
      | [] => none
      | c :: r =>
        if c = ',' then (parseItems fuel r).map fun pl => (pv.1 :: pl.1, pl.2)
        else if c = ']' then some ([pv.1], r)
        else none

end

/-- Model of strict `json.loads`: parse one value and require only
whitespace to remain. -/
def pyJsonLoads (s : List Char) : Option JVal :=
  match parseVal (s.length + 1) s with
  | some (v, r) => if skipWs r = [] then some v else none
  | none => none

lemma dropWhile_len_le (f : Char → Bool) : ∀ l : List Char, (l.dropWhile f).length ≤ l.length := by
  intro l
  induction l with
  | nil => simp
  | cons a as ih =>
    rw [List.dropWhile_cons]
    split
    · exact Nat.le_trans ih (by simp)
    · simp

/-- Scan for the closing `*/` of a block comment; fail at a newline
because `.` in the comment pattern of `build_index.py:43` does not
match newlines. Returns the input after the close. -/
def findBlockClose : List Char → Option (List Char)
  | [] => none
  | c :: rest =>
    if c = '*' ∧ rest.headD ' ' = '/' then some rest.tail
    else if c = '\n' then none
    else findBlockClose rest

lemma findBlockClose_length :
    ∀ (l r2 : List Char), findBlockClose l = some r2 → r2.length < l.length := by
  intro l
  induction l with
  | nil => intro r2 h; simp [findBlockClose] at h
  | cons c rest ih =>
    intro r2 h
    rw [findBlockClose] at h
    by_cases h1 : c = '*' ∧ rest.headD ' ' = '/'
    · rw [if_pos h1] at h
      injection h with h
      subst h
      have := List.length_tail rest
      simp only [List.length_cons]
      omega
    · rw [if_neg h1] at h
      by_cases h2 : c = '\n'
      · rw [if_pos h2] at h; exact absurd h (by simp)
      · rw [if_neg h2] at h
        have := ih r2 h
        simp only [List.length_cons]
        omega

/-- Model of `_comment_re.sub("", s)` from `build_index.py:43-46`:
remove `//` comments to end of line and `/* */` comments that close on
the same line, scanning left to right. -/
def commentSub : List Char → List Char
  | [] => []
  | c :: cs =>
    if c = '/' ∧ cs.headD ' ' = '/' then
      commentSub (cs.tail.dropWhile (fun d => d != '\n'))
    else if c = '/' ∧ cs.headD ' ' = '*' then
      match h : findBlockClose cs.tail with
      | some r2 => commentSub r2
      | none => c :: commentSub cs
    else c :: commentSub cs
termination_by s => s.length
decreasing_by
  · have h1 : (cs.tail.dropWhile (fun d => d != '\n')).length ≤ cs.tail.length :=
      dropWhile_len_le _ _
    have h2 : cs.tail.length ≤ cs.length := by cases cs <;> simp
    simp only [List.length_cons]
    omega
  · have h1 := findBlockClose_length cs.tail r2 h
    have h2 : cs.tail.length ≤ cs.length := by cases cs <;> simp
    simp only [List.length_cons]
    omega
  · simp only [List.length_cons]
    omega
  · simp only [List.length_cons]
    omega

/-- Model of `_trailing_comma_re.sub(r"\1", s)` from
`build_index.py:47`: a comma followed by whitespace and a closing brace
or bracket collapses to just the closer. -/
def commaSub : List Char → List Char
  | [] => []
  | c :: cs =>
    if c = ',' then
      if (cs.dropWhile isPyWs).headD ' ' = Char.ofNat 125
          ∨ (cs.dropWhile isPyWs).headD ' ' = ']' then
        (cs.dropWhile isPyWs).headD ' ' :: commaSub (cs.dropWhile isPyWs).tail
      else c :: commaSub cs
    else c :: commaSub cs
termination_by s => s.length
decreasing_by
  · have h1 : (cs.dropWhile isPyWs).length ≤ cs.length := dropWhile_len_le _ _
    have h2 : (cs.dropWhile isPyWs).tail.length + 1 ≤ (cs.dropWhile isPyWs).length + 1 := by
      cases cs.dropWhile isPyWs <;> simp
    simp only [List.length_cons]
    omega
  · simp only [List.length_cons]
    omega
  · simp only [List.length_cons]
    omega

/-- The tolerant manifest parser of `build_index.py:49-56`: strict parse
first; on failure strip comments and trailing commas and retry once. A
second failure propagates (`none`). -/
def json_loads_tolerant (s : List Char) : Option JVal :=
  match pyJsonLoads s with
  | some v => some v
  | none => pyJsonLoads (commaSub (commentSub s))

example : pyJsonLoads "\x7b\"a\": 1\x7d".toList = some (.jobj [("a".toList, .jint 1)]) := by rfl
example : pyJsonLoads "\x7b\"a\": 1,\x7d".toList = none := by rfl
example : pyJsonLoads "[1, 2]".toList = some (.jarr [.jint 1, .jint 2]) := by rfl
example : pyJsonLoads "null".toList = some .jnull := by rfl
example :
    json_loads_tolerant "\x7b\"a\": \"b\",\n// note\n\x7d".toList
      = some (.jobj [("a".toList, .jstr "b".toList)]) := by
  have hs : pyJsonLoads "\x7b\"a\": \"b\",\n// note\n\x7d".toList = none := by rfl
  unfold json_loads_tolerant
  rw [hs]
  have hc : commentSub ['\x7b', '"', 'a', '"', ':', ' ', '"', 'b', '"', ',', '\n', '/', '/',
        ' ', 'n', 'o', 't', 'e', '\n', '\x7d']
      = ['\x7b', '"', 'a', '"', ':', ' ', '"', 'b', '"', ',', '\n', '\n', '\x7d'] := by
    simp [commentSub]
  have hcc : commaSub ['\x7b', '"', 'a', '"', ':', ' ', '"', 'b', '"', ',', '\n', '\n', '\x7d']
      = ['\x7b', '"', 'a', '"', ':', ' ', '"', 'b', '"', '\x7d'] := by
    simp [commaSub, isPyWs]
  show pyJsonLoads (commaSub (commentSub ['\x7b', '"', 'a', '"', ':', ' ', '"', 'b', '"', ',',
    '\n', '/', '/', ' ', 'n', 'o', 't', 'e', '\n', '\x7d'])) = _
  rw [hc, hcc]
  rfl
example : json_loads_tolerant "\x7b\"a\": \"http://x\",\n// note\n\x7d".toList = none := by
  have hs : pyJsonLoads "\x7b\"a\": \"http://x\",\n// note\n\x7d".toList = none := by rfl
  unfold json_loads_tolerant
  rw [hs]
  have hc : commentSub ['\x7b', '"', 'a', '"', ':', ' ', '"', 'h', 't', 't', 'p', ':', '/', '/',
        'x', '"', ',', '\n', '/', '/', ' ', 'n', 'o', 't', 'e', '\n', '\x7d']
      = ['\x7b', '"', 'a', '"', ':', ' ', '"', 'h', 't', 't', 'p', ':', '\n', '\n', '\x7d'] := by
    simp [commentSub]
  have hcc : commaSub ['\x7b', '"', 'a', '"', ':', ' ', '"', 'h', 't', 't', 'p', ':', '\n', '\n', '\x7d']
      = ['\x7b', '"', 'a', '"', ':', ' ', '"', 'h', 't', 't', 'p', ':', '\n', '\n', '\x7d'] := by
    simp [commaSub, isPyWs]
  show pyJsonLoads (commaSub (commentSub ['\x7b', '"', 'a', '"', ':', ' ', '"', 'h', 't', 't',
    'p', ':', '/', '/', 'x', '"', ',', '\n', '/', '/', ' ', 'n', 'o', 't', 'e', '\n', '\x7d'])) = _
  rw [hc, hcc]
  rfl
example :
    pyJsonLoads "\x7b\"a\": \"http://x\"\n\x7d".toList
      = some (.jobj [("a".toList, .jstr "http://x".toList)]) := by rfl

/-! ## Release scanner and package merge (build_index.py lines 113-214)

The network, archive and filesystem layers are upstream of the logic
modelled here: an input item is a release tag together with one
downloaded asset whose manifest was already extracted and parsed.
-/

/-- A parsed manifest, with the fields the scanner reads. `none` models
an absent key. String-valued fields are modelled as strings (the code
applies `str()` to `status`/`kicad_version` and string methods to
`version`, so non-string values there are outside the model);
`author`/`maintainer`/`install_size` keep their raw JSON value because
the code checks `isinstance(..., dict)` or truthiness on them. -/
structure ManifestM where
  identifier : Option String := none
  name : Option String := none
  type : Option String := none
  description : Option String := none
  description_full : Option String := none
  license : Option String := none
  author : Option JVal := none
  maintainer : Option JVal := none
  resources : Option (List (String × String)) := none
  version : Option String := none
  status : Option String := none
  kicad_version : Option String := none
  install_size : Option JVal := none

/-- One downloaded release asset that passed the glob filter and yielded
a manifest: its name, content hash, byte size and parsed manifest. -/
structure AssetIn where
  assetName : String
  sha : String
  size : Nat
  manifest : ManifestM

/-- One Version record of the output package list
(build_index.py lines 187-200). -/
structure VersionEntry where
  version : String
  download_url : String
  download_sha256 : String
  download_size : Nat
  status : String
  kicad_version : String
  install_size : Option Int := none
deriving DecidableEq, Repr

/-- One merged Package record; field order mirrors the dict insertion
order of build_index.py lines 153-167. -/
structure Package where
  identifier : String
  name : String
  type : String
  description : String
  description_full : Option String
  license : String
  author : Option JVal
  maintainer : Option JVal
  resources : List (String × String)
  versions : List VersionEntry

/-- Python `a or b` when `a` is an optional string: `a` when present
and non-empty (truthy), else `b`. -/
def pyOrS (a : Option String) (b : String) : String :=
  match a with
  | some s => if s = "" then b else s
  | none => b

/-- Python `str.strip()` (ASCII whitespace). -/
def pyStrip (s : String) : String :=
  String.mk (((s.toList.dropWhile isPyWs).reverse.dropWhile isPyWs).reverse)

/-- Python `tag.lstrip("v")`: remove all leading `v` characters. -/
def pyLstripV (s : String) : String :=
  String.mk (s.toList.dropWhile (fun c => c = 'v'))

/-- The version string computed at build_index.py line 182:
`(manifest.get("version") or (tag.lstrip("v") if tag else "0.0.0")).strip()`. -/
def computeVersion (m : ManifestM) (tag : Option String) : String :=
  pyStrip (pyOrS m.version (match tag with
    | some t => if t = "" then "0.0.0" else pyLstripV t
    | none => "0.0.0"))

/-- The fresh package dict built by `packages.setdefault` at
build_index.py lines 153-167. -/
def mkPackage (pid : String) (m : ManifestM) : Package :=
  { identifier := pid
    name := m.name.getD pid
    type := m.type.getD "library"
    description := m.description.getD (pid ++ " package")
    description_full :=
      match m.description_full with
      | some s => if s = "" then none else some s
      | none => none
    license := m.license.getD ""
    author :=
      match m.author with
      | some (.jobj ms) => some (.jobj ms)
      | _ => none
    maintainer :=
      match m.maintainer with
      | some (.jobj ms) => some (.jobj ms)
      | _ => none
    resources := m.resources.getD []
    versions := [] }

/-- The local-assets filesystem facts the auto-wire step at
build_index.py lines 169-180 consults; fixed for the whole run. -/
structure ScanEnv where
  assetsDirExists : String → Bool
  iconExists : String → Bool
  screenshotExists : String → Bool

/-- Key membership in a resources mapping. -/
def resHasKey (res : List (String × String)) (k : String) : Bool :=
  res.any (fun kv => kv.1 == k)

/-- Auto-wire of local icon/screenshot files into the resources mapping
(build_index.py lines 169-180): fill `icon` / `screenshot` entries only
when not already present. -/
def autoWire (env : ScanEnv) (pid : String) (pkg : Package) : Package :=
  if env.assetsDirExists pid then
    let r1 := if env.iconExists pid ∧ ¬ resHasKey pkg.resources "icon"
      then pkg.resources ++ [("icon", pid ++ "/icon.png")] else pkg.resources
    let r2 := if env.screenshotExists pid ∧ ¬ resHasKey r1 "screenshot"
      then r1 ++ [("screenshot", pid ++ "/screenshot.png")] else r1
    { pkg with resources := r2 }
  else pkg

/-- The release-asset download URL of build_index.py lines 31-33; the
owner/repo slug is split and re-joined with `/`, which is the identity
on the slug, and a missing tag renders as the text `None` inside the
f-string. -/
def tagToStr : Option String → String
  | some t => t
  | none => "None"

/-- Download URL construction (build_index.py lines 31-33). -/
def asset_download_url (ownerRepo tagStr assetName : String) : String :=
  "https://github.com/" ++ ownerRepo ++ "/releases/download/" ++ tagStr ++ "/" ++ assetName

/-- The Version record appended at build_index.py lines 187-202,
including the truthiness-guarded `int()` conversion of `install_size`
whose failure is swallowed (lines 195-200). -/
def mkVersionEntry (ownerRepo : String) (tag : Option String) (a : AssetIn) (vstr : String) :
    VersionEntry :=
  { version := vstr
    download_url := asset_download_url ownerRepo (tagToStr tag) a.assetName
    download_sha256 := a.sha
    download_size := a.size
    status := a.manifest.status.getD "testing"
    kicad_version := a.manifest.kicad_version.getD "8.0"
    install_size :=
      match a.manifest.install_size with
      | some v => if pyTruthy v then pyToInt v else none
      | none => none }

/-- Ordered-dict lookup. -/
def assocGet : List (String × Package) → String → Option Package
  | [], _ => none
  | kv :: rest, k => if kv.1 == k then some kv.2 else assocGet rest k

/-- Ordered-dict update of an existing key, keeping its position. -/
def assocSet : List (String × Package) → String → Package → List (String × Package)
  | [], _, _ => []
  | kv :: rest, k, p => if kv.1 == k then (kv.1, p) :: rest else kv :: assocSet rest k p

/-- The version de-duplication step of build_index.py lines 183-202:
append a Version record unless the computed version string is already
present. -/
def appendVersionIfNew (ownerRepo : String) (tag : Option String) (a : AssetIn)
    (vstr : String) (pkg : Package) : Package :=
  if pkg.versions.any (fun v => v.version == vstr) then pkg
  else { pkg with versions := pkg.versions ++ [mkVersionEntry ownerRepo tag a vstr] }

/-- Processing of one matched asset by the merge loop of
build_index.py lines 132-203: `setdefault` the package record, auto-wire
local resources, compute the version string, and append a Version
record unless that version string is already present. -/
def processAsset (env : ScanEnv) (srcId ownerRepo : String)
    (st : List (String × Package)) (tag : Option String) (a : AssetIn) :
    List (String × Package) :=
  let pid := pyOrS a.manifest.identifier srcId
  let vstr := computeVersion a.manifest tag
  match assocGet st pid with
  | some pkg0 =>
    assocSet st pid (appendVersionIfNew ownerRepo tag a vstr (autoWire env pid pkg0))
  | none =>
    st ++ [(pid, appendVersionIfNew ownerRepo tag a vstr (autoWire env pid (mkPackage pid a.manifest)))]

/-- Folding the merge loop over the (tag, asset) stream. -/
def scanFold (env : ScanEnv) (srcId ownerRepo : String)
    (st : List (String × Package)) : List (Option String × AssetIn) → List (String × Package)
  | [] => st
  | (tag, a) :: rest => scanFold env srcId ownerRepo (processAsset env srcId ownerRepo st tag a) rest

/-- Lexicographic (code-point) order on char lists, as Python compares
strings. -/
def charListLe : List Char → List Char → Bool
  | [], _ => true
  | _ :: _, [] => false
  | a :: as, b :: bs => if a = b then charListLe as bs else decide (a < b)

/-- Python `<=` on strings. -/
def pyStrLe (a b : String) : Bool := charListLe a.toList b.toList

/-- Descending comparison on Version records by raw version string, the
order produced by `sort(key=..., reverse=True)`. -/
def versionGe (a b : VersionEntry) : Prop := pyStrLe b.version a.version = true

instance : DecidableRel versionGe :=
  fun a b => instDecidableEqBool (pyStrLe b.version a.version) true

/-- The per-package sort of build_index.py lines 210-212:
`pkg["versions"].sort(key=..., reverse=True)` — a stable descending sort
by the raw version string. -/
def sortVersionsDesc (vs : List VersionEntry) : List VersionEntry :=
  vs.insertionSort versionGe

/-- Final sort pass over all packages (build_index.py lines 210-212). -/
def finalizeScan (st : List (String × Package)) : List Package :=
  st.map (fun kv => { kv.2 with versions := sortVersionsDesc kv.2.versions })

/-- The whole release-scan builder on the extracted asset stream
(build_index.py lines 113-214). -/
def buildFromReleaseScan (env : ScanEnv) (srcId ownerRepo : String)
    (items : List (Option String × AssetIn)) : List Package :=
  finalizeScan (scanFold env srcId ownerRepo [] items)

/-- A run environment with no local asset folders. -/
def noAssets : ScanEnv :=
  { assetsDirExists := fun _ => false
    iconExists := fun _ => false
    screenshotExists := fun _ => false }

example :
    (buildFromReleaseScan noAssets "src.id" "o/r"
      [(some "v1.0.0",
        { assetName := "a.zip", sha := "s", size := 3,
          manifest := { identifier := some "com.example.foo", version := some "1.0.0" } })]).map
      (fun p => (p.identifier, p.versions.map (fun v => v.version)))
      = [("com.example.foo", ["1.0.0"])] := by rfl

example :
    (buildFromReleaseScan noAssets "src.id" "o/r"
      [(some "v2",
        { assetName := "a.zip", sha := "s", size := 3,
          manifest := { identifier := some "i" } }),
       (some "v1",
        { assetName := "b.zip", sha := "t", size := 4,
          manifest := { identifier := some "i" } })]).map
      (fun p => (p.identifier, p.versions.map (fun v => v.version)))
      = [("i", ["2", "1"])] := by rfl

example :
    (buildFromReleaseScan noAssets "src.id" "o/r"
      [(none,
        { assetName := "a.zip", sha := "s", size := 3,
          manifest := { identifier := some "i", version := some "1.2.0" } }),
       (none,
        { assetName := "b.zip", sha := "t", size := 4,
          manifest := { identifier := some "i", version := some "1.9.0" } }),
       (none,
        { assetName := "c.zip", sha := "u", size := 5,
          manifest := { identifier := some "i", version := some "1.10.0" } })]).map
      (fun p => p.versions.map (fun v => v.version))
      = [["1.9.0", "1.2.0", "1.10.0"]] := by rfl

/-! ### Merge-loop lemmas -/

/-- Lookup in a resources mapping. -/
def resGet : List (String × String) → String → Option String
  | [], _ => none
  | kv :: rest, k => if kv.1 == k then some kv.2 else resGet rest k

lemma autoWire_fields (env : ScanEnv) (pid : String) (pkg : Package) :
    (autoWire env pid pkg).identifier = pkg.identifier
      ∧ (autoWire env pid pkg).name = pkg.name
      ∧ (autoWire env pid pkg).type = pkg.type
      ∧ (autoWire env pid pkg).description = pkg.description
      ∧ (autoWire env pid pkg).description_full = pkg.description_full
      ∧ (autoWire env pid pkg).license = pkg.license
      ∧ (autoWire env pid pkg).author = pkg.author
      ∧ (autoWire env pid pkg).maintainer = pkg.maintainer
      ∧ (autoWire env pid pkg).versions = pkg.versions := by
  unfold autoWire
  split <;> simp

lemma appendVersionIfNew_fields (o : String) (t : Option String) (a : AssetIn) (v : String)
    (pkg : Package) :
    (appendVersionIfNew o t a v pkg).identifier = pkg.identifier
      ∧ (appendVersionIfNew o t a v pkg).name = pkg.name
      ∧ (appendVersionIfNew o t a v pkg).type = pkg.type
      ∧ (appendVersionIfNew o t a v pkg).description = pkg.description
      ∧ (appendVersionIfNew o t a v pkg).description_full = pkg.description_full
      ∧ (appendVersionIfNew o t a v pkg).license = pkg.license
      ∧ (appendVersionIfNew o t a v pkg).author = pkg.author
      ∧ (appendVersionIfNew o t a v pkg).maintainer = pkg.maintainer
      ∧ (appendVersionIfNew o t a v pkg).resources = pkg.resources := by
  unfold appendVersionIfNew
  split <;> simp

lemma resGet_append_of_some {res : List (String × String)} {k v : String}
    (h : resGet res k = some v) (l : List (String × String)) :
    resGet (res ++ l) k = some v := by
  induction res with
  | nil => simp [resGet] at h
  | cons kv rest ih =>
    rw [resGet] at h
    rw [List.cons_append, resGet]
    by_cases hk : kv.1 == k
    · rw [if_pos hk] at h ⊢; exact h
    · rw [if_neg hk] at h ⊢; exact ih h

lemma autoWire_resGet {env : ScanEnv} {pid : String} {pkg : Package} {k v : String}
    (h : resGet pkg.resources k = some v) :
    resGet (autoWire env pid pkg).resources k = some v := by
  unfold autoWire
  split
  · dsimp only
    split
    · split
      · exact resGet_append_of_some (resGet_append_of_some h _) _
      · exact resGet_append_of_some h _
    · split
      · exact resGet_append_of_some h _
      · exact h
  · exact h

lemma mem_assocSet {st : List (String × Package)} {k : String} {p : Package} :
    ∀ kv, kv ∈ assocSet st k p → kv.2 = p ∨ kv ∈ st := by
  induction st with
  | nil => intro kv h; simp [assocSet] at h
  | cons kv0 rest ih =>
    intro kv h
    rw [assocSet] at h
    by_cases hk : kv0.1 == k
    · rw [if_pos hk] at h
      rcases List.mem_cons.mp h with h1 | h1
      · left; rw [h1]
      · right; exact List.mem_cons_of_mem _ h1
    · rw [if_neg hk] at h
      rcases List.mem_cons.mp h with h1 | h1
      · right; rw [h1]; exact List.mem_cons_self _ _
      · rcases ih kv h1 with h2 | h2
        · left; exact h2
        · right; exact List.mem_cons_of_mem _ h2

lemma assocGet_assocSet_self {st : List (String × Package)} {k : String} (p : Package)
    (h : (assocGet st k).isSome) :
    assocGet (assocSet st k p) k = some p := by
  induction st with
  | nil => simp [assocGet] at h
  | cons kv rest ih =>
    rw [assocSet]
    by_cases hk : kv.1 == k
    · rw [if_pos hk, assocGet, if_pos hk]
    · rw [if_neg hk, assocGet, if_neg hk]
      rw [assocGet, if_neg hk] at h
      exact ih h

lemma assocGet_assocSet_other {st : List (String × Package)} {k k2 : String} (p : Package)
    (h : k ≠ k2) :
    assocGet (assocSet st k p) k2 = assocGet st k2 := by
  induction st with
  | nil => simp [assocSet]
  | cons kv rest ih =>
    rw [assocSet]
    by_cases hk : kv.1 == k
    · rw [if_pos hk, assocGet, assocGet]
      have : (kv.1 == k2) = false := by
        rw [beq_eq_false_iff_ne]
        intro hc
        exact h ((beq_iff_eq.mp hk).symm.trans hc ▸ rfl)
      rw [this]
      simp
    · rw [if_neg hk, assocGet, assocGet]
      by_cases hk2 : kv.1 == k2
      · rw [if_pos hk2, if_pos hk2]
      · rw [if_neg hk2, if_neg hk2]
        exact ih

lemma assocGet_append_of_some {st : List (String × Package)} {k : String} {p : Package}
    (h : assocGet st k = some p) (l : List (String × Package)) :
    assocGet (st ++ l) k = some p := by
  induction st with
  | nil => simp [assocGet] at h
  | cons kv rest ih =>
    rw [assocGet] at h
    rw [List.cons_append, assocGet]
    by_cases hk : kv.1 == k
    · rw [if_pos hk] at h ⊢; exact h
    · rw [if_neg hk] at h ⊢; exact ih h

lemma assocGet_append_new {st : List (String × Package)} {k : String} (p : Package)
    (h : assocGet st k = none) :
    assocGet (st ++ [(k, p)]) k = some p := by
  induction st with
  | nil => simp [assocGet]
  | cons kv rest ih =>
    rw [assocGet] at h
    rw [List.cons_append, assocGet]
    by_cases hk : kv.1 == k
    · rw [if_pos hk] at h; exact absurd h (by simp)
    · rw [if_neg hk] at h ⊢; exact ih h

lemma assocGet_some_mem {st : List (String × Package)} {k : String} {p : Package}
    (h : assocGet st k = some p) : ∃ kv ∈ st, kv.2 = p := by
  induction st with
  | nil => simp [assocGet] at h
  | cons kv rest ih =>
    rw [assocGet] at h
    by_cases hk : kv.1 == k
    · rw [if_pos hk] at h
      injection h with h
      exact ⟨kv, List.mem_cons_self _ _, h⟩
    · rw [if_neg hk] at h
      rcases ih h with ⟨kv2, hmem, heq⟩
      exact ⟨kv2, List.mem_cons_of_mem _ hmem, heq⟩

/-- Invariant: within every package of the state, version strings are
pairwise distinct. -/
def VersionsNodupInv (st : List (String × Package)) : Prop :=
  ∀ kv ∈ st, ((kv.2.versions.map (fun v => v.version)).Nodup)

lemma appendVersionIfNew_nodup {o : String} {t : Option String} {a : AssetIn} {v : String}
    {pkg : Package} (h : (pkg.versions.map (fun x => x.version)).Nodup) :
    (((appendVersionIfNew o t a v pkg).versions.map (fun x => x.version)).Nodup) := by
  unfold appendVersionIfNew
  split
  · exact h
  · rename_i hany
    simp only [List.map_append, List.map_cons, List.map_nil]
    rw [List.nodup_append]
    refine ⟨h, List.nodup_singleton _, ?_⟩
    intro x hx hx2
    simp only [mkVersionEntry, List.mem_singleton] at hx2
    subst hx2
    apply hany
    rw [List.any_eq_true]
    rcases List.mem_map.mp hx with ⟨e, he, hev⟩
    exact ⟨e, he, by rw [hev]; simp⟩

lemma processAsset_nodup {env : ScanEnv} {srcId repo : String}
    {st : List (String × Package)} {tag : Option String} {a : AssetIn}
    (h : VersionsNodupInv st) :
    VersionsNodupInv (processAsset env srcId repo st tag a) := by
  intro kv hkv
  unfold processAsset at hkv
  dsimp only at hkv
  cases hget : assocGet st (pyOrS a.manifest.identifier srcId) with
  | some pkg0 =>
    rw [hget] at hkv
    rcases mem_assocSet kv hkv with h1 | h1
    · rw [h1]
      have hv := (autoWire_fields env (pyOrS a.manifest.identifier srcId) pkg0).2.2.2.2.2.2.2.2
      apply appendVersionIfNew_nodup
      rw [hv]
      rcases assocGet_some_mem hget with ⟨kv2, hmem, heq⟩
      have := h kv2 hmem
      rw [heq] at this
      exact this
    · exact h kv h1
  | none =>
    rw [hget] at hkv
    rcases List.mem_append.mp hkv with h1 | h1
    · exact h kv h1
    · rw [List.mem_singleton.mp h1]
      have hv := (autoWire_fields env (pyOrS a.manifest.identifier srcId)
        (mkPackage (pyOrS a.manifest.identifier srcId) a.manifest)).2.2.2.2.2.2.2.2
      apply appendVersionIfNew_nodup
      rw [hv]
      exact List.nodup_nil

lemma scanFold_nodup {env : ScanEnv} {srcId repo : String} :
    ∀ (items : List (Option String × AssetIn)) (st : List (String × Package)),
      VersionsNodupInv st → VersionsNodupInv (scanFold env srcId repo st items) := by
  intro items
  induction items with
  | nil => intro st h; exact h
  | cons it rest ih =>
    intro st h
    rw [scanFold]
    exact ih _ (processAsset_nodup h)

/-- C2: within every package built by the release scanner the version
strings are pairwise distinct, and an asset whose computed version
string is already present for its package leaves that package's
version list unchanged (the first-encountered entry survives; the
duplicate is dropped, not merged). -/
theorem release_scan_version_strings_unique :
    (∀ (env : ScanEnv) (srcId repo : String) (items : List (Option String × AssetIn))
       (p : Package), p ∈ buildFromReleaseScan env srcId repo items →
         (p.versions.map (fun v => v.version)).Nodup)
    ∧ (∀ (env : ScanEnv) (srcId repo : String) (st : List (String × Package))
         (tag : Option String) (a : AssetIn) (pkg : Package),
         assocGet st (pyOrS a.manifest.identifier srcId) = some pkg →
         pkg.versions.any (fun v => v.version == computeVersion a.manifest tag) = true →
         ∃ pkg2, assocGet (processAsset env srcId repo st tag a)
             (pyOrS a.manifest.identifier srcId) = some pkg2
           ∧ pkg2.versions = pkg.versions) := by
  constructor
  · intro env srcId repo items p hp
    unfold buildFromReleaseScan finalizeScan at hp
    rcases List.mem_map.mp hp with ⟨kv, hkv, hpe⟩
    have inv : VersionsNodupInv (scanFold env srcId repo [] items) :=
      scanFold_nodup items [] (by intro kv2 h2; simp at h2)
    have hnd := inv kv hkv
    rw [← hpe]
    dsimp only
    unfold sortVersionsDesc
    exact ((List.perm_insertionSort versionGe kv.2.versions).map
      (fun v => v.version)).nodup_iff.mpr hnd
  · intro env srcId repo st tag a pkg hget hany
    refine ⟨appendVersionIfNew repo tag a (computeVersion a.manifest tag)
      (autoWire env (pyOrS a.manifest.identifier srcId) pkg), ?_, ?_⟩
    · unfold processAsset
      dsimp only
      rw [hget]
      exact assocGet_assocSet_self _ (by rw [hget]; rfl)
    · have hv := (autoWire_fields env (pyOrS a.manifest.identifier srcId) pkg).2.2.2.2.2.2.2.2
      unfold appendVersionIfNew
      rw [if_pos]
      · exact hv
      · rw [hv]
        exact hany

/-- Concrete one-package state used to witness C2. -/
def c2Entry : VersionEntry :=
  { version := "1.0", download_url := "u", download_sha256 := "s", download_size := 1,
    status := "testing", kicad_version := "8.0" }

/-- Concrete package used to witness C2. -/
def c2Pkg : Package :=
  { identifier := "i", name := "n", type := "library", description := "d",
    description_full := none, license := "", author := none, maintainer := none,
    resources := [], versions := [c2Entry] }

/-- Concrete duplicate-version asset used to witness C2. -/
def c2Asset : AssetIn :=
  { assetName := "b.zip", sha := "t", size := 2,
    manifest := { identifier := some "i", version := some "1.0" } }

/-- C2 witness: processing a second asset that declares the
already-present version `1.0` leaves the package's version list
unchanged. -/
theorem release_scan_version_strings_unique_witness :
    ∃ pkg2, assocGet (processAsset noAssets "src" "o/r" [("i", c2Pkg)] none c2Asset)
        (pyOrS c2Asset.manifest.identifier "src") = some pkg2
      ∧ pkg2.versions = c2Pkg.versions :=
  release_scan_version_strings_unique.2 noAssets "src" "o/r" [("i", c2Pkg)] none c2Asset c2Pkg
    (by rfl) (by rfl)

/-- The display fields of `old` survive into `new`: name, type,
description, long description, license, author, maintainer are equal,
and every resources entry of `old` is still present unchanged. -/
def DisplayPreserved (old new : Package) : Prop :=
  new.name = old.name ∧ new.type = old.type ∧ new.description = old.description
    ∧ new.description_full = old.description_full ∧ new.license = old.license
    ∧ new.author = old.author ∧ new.maintainer = old.maintainer
    ∧ ∀ k v, resGet old.resources k = some v → resGet new.resources k = some v

lemma displayPreserved_refl (p : Package) : DisplayPreserved p p :=
  ⟨rfl, rfl, rfl, rfl, rfl, rfl, rfl, fun _ _ h => h⟩

lemma displayPreserved_trans {p q r : Package}
    (h1 : DisplayPreserved p q) (h2 : DisplayPreserved q r) : DisplayPreserved p r := by
  obtain ⟨a1, b1, c1, d1, e1, f1, g1, r1⟩ := h1
  obtain ⟨a2, b2, c2, d2, e2, f2, g2, r2⟩ := h2
  exact ⟨a2.trans a1, b2.trans b1, c2.trans c1, d2.trans d1, e2.trans e1,
    f2.trans f1, g2.trans g1, fun k v h => r2 k v (r1 k v h)⟩

lemma step_display (env : ScanEnv) (pid o : String) (t : Option String) (a : AssetIn)
    (v : String) (pkg : Package) :
    DisplayPreserved pkg (appendVersionIfNew o t a v (autoWire env pid pkg)) := by
  obtain ⟨_, an, at2, ad, adf, al, aa, am, _⟩ := autoWire_fields env pid pkg
  obtain ⟨_, bn, bt, bd, bdf, bl, ba, bm, brs⟩ :=
    appendVersionIfNew_fields o t a v (autoWire env pid pkg)
  refine ⟨bn.trans an, bt.trans at2, bd.trans ad, bdf.trans adf, bl.trans al,
    ba.trans aa, bm.trans am, ?_⟩
  intro k vv hv
  rw [brs]
  exact autoWire_resGet hv

lemma processAsset_display {env : ScanEnv} {srcId repo : String}
    {st : List (String × Package)} {tag : Option String} {a : AssetIn}
    {pid : String} {pkg : Package}
    (h : assocGet st pid = some pkg) :
    ∃ pkg2, assocGet (processAsset env srcId repo st tag a) pid = some pkg2
      ∧ DisplayPreserved pkg pkg2 := by
  unfold processAsset
  dsimp only
  cases hget : assocGet st (pyOrS a.manifest.identifier srcId) with
  | some pkg0 =>
    by_cases heq : pyOrS a.manifest.identifier srcId = pid
    · subst heq
      rw [hget] at h
      injection h with h
      refine ⟨_, assocGet_assocSet_self _ (by rw [hget]; rfl), ?_⟩
      rw [← h]
      exact step_display env _ repo tag a _ pkg0
    · rw [assocGet_assocSet_other _ heq, h]
      exact ⟨pkg, rfl, displayPreserved_refl pkg⟩
  | none =>
    rw [assocGet_append_of_some h]
    exact ⟨pkg, rfl, displayPreserved_refl pkg⟩

lemma scanFold_display {env : ScanEnv} {srcId repo : String} :
    ∀ (items : List (Option String × AssetIn)) (st : List (String × Package))
      (pid : String) (pkg : Package),
      assocGet st pid = some pkg →
      ∃ pkg2, assocGet (scanFold env srcId repo st items) pid = some pkg2
        ∧ DisplayPreserved pkg pkg2 := by
  intro items
  induction items with
  | nil => intro st pid pkg h; exact ⟨pkg, h, displayPreserved_refl pkg⟩
  | cons it rest ih =>
    intro st pid pkg h
    rw [scanFold]
    rcases @processAsset_display env srcId repo st it.1 it.2 pid pkg h with ⟨pkgm, hm, hdm⟩
    rcases ih _ pid pkgm hm with ⟨pkg2, h2, hd2⟩
    exact ⟨pkg2, h2, displayPreserved_trans hdm hd2⟩

/-- First asset for identifier `i`, declaring name `A` (C3 example). -/
def c3AssetA : AssetIn :=
  { assetName := "a.zip", sha := "s", size := 1,
    manifest := { identifier := some "i", name := some "A", version := some "1" } }

/-- Second asset for identifier `i`, declaring name `B` (C3 example). -/
def c3AssetB : AssetIn :=
  { assetName := "b.zip", sha := "t", size := 2,
    manifest := { identifier := some "i", name := some "B", version := some "2" } }

/-- C3: display fields are first-seen-wins. Processing further assets
never changes an existing package's name, type, description, long
description, license, author or maintainer, and never overwrites an
existing resources entry; a package created for a fresh identifier
takes all display fields from that first asset's manifest
(`mkPackage`); concretely, two assets for identifier `i` declaring
names `A` then `B` yield final name `A`. -/
theorem release_scan_display_fields_first_seen_wins :
    (∀ (env : ScanEnv) (srcId repo : String) (items : List (Option String × AssetIn))
       (st : List (String × Package)) (pid : String) (pkg : Package),
       assocGet st pid = some pkg →
       ∃ pkg2, assocGet (scanFold env srcId repo st items) pid = some pkg2
         ∧ DisplayPreserved pkg pkg2)
    ∧ (∀ (env : ScanEnv) (srcId repo : String) (st : List (String × Package))
         (tag : Option String) (a : AssetIn),
       assocGet st (pyOrS a.manifest.identifier srcId) = none →
       ∃ pkg2, assocGet (processAsset env srcId repo st tag a)
           (pyOrS a.manifest.identifier srcId) = some pkg2
         ∧ DisplayPreserved (mkPackage (pyOrS a.manifest.identifier srcId) a.manifest) pkg2)
    ∧ (buildFromReleaseScan noAssets "src" "o/r"
        [(some "v1", c3AssetA), (some "v2", c3AssetB)]).map (fun p => p.name) = ["A"] := by
  refine ⟨?_, ?_, by rfl⟩
  · intro env srcId repo items st pid pkg h
    exact scanFold_display items st pid pkg h
  · intro env srcId repo st tag a h
    unfold processAsset
    dsimp only
    rw [h]
    refine ⟨_, assocGet_append_new _ h, ?_⟩
    exact step_display env _ repo tag a _ _

/-- C3 witness: the fold-preservation part applied to a concrete state
holding package `i` and one further duplicate asset. -/
theorem release_scan_display_fields_first_seen_wins_witness :
    ∃ pkg2, assocGet (scanFold noAssets "src" "o/r" [("i", c2Pkg)] [(none, c2Asset)]) "i"
        = some pkg2 ∧ DisplayPreserved c2Pkg pkg2 :=
  release_scan_display_fields_first_seen_wins.1 noAssets "src" "o/r"
    [(none, c2Asset)] [("i", c2Pkg)] "i" c2Pkg (by rfl)

lemma charListLe_total : ∀ (a b : List Char),
    charListLe a b = true ∨ charListLe b a = true := by
  intro a
  induction a with
  | nil => intro b; left; rfl
  | cons x xs ih =>
    intro b
    cases b with
    | nil => right; rfl
    | cons y ys =>
      by_cases hxy : x = y
      · subst hxy
        rcases ih ys with h | h
        · left; rw [charListLe, if_pos rfl]; exact h
        · right; rw [charListLe, if_pos rfl]; exact h
      · rcases lt_trichotomy x y with hlt | heq | hgt
        · left; rw [charListLe, if_neg hxy]; exact decide_eq_true hlt
        · exact absurd heq hxy
        · right; rw [charListLe, if_neg (Ne.symm hxy)]; exact decide_eq_true hgt

lemma charListLe_trans : ∀ (a b c : List Char),
    charListLe a b = true → charListLe b c = true → charListLe a c = true := by
  intro a
  induction a with
  | nil => intro b c _ _; rfl
  | cons x xs ih =>
    intro b c h1 h2
    cases b with
    | nil => exact absurd h1 (by rw [charListLe]; simp)
    | cons y ys =>
      cases c with
      | nil => exact absurd h2 (by rw [charListLe]; simp)
      | cons z zs =>
        rw [charListLe] at h1 h2 ⊢
        by_cases hxy : x = y
        · subst hxy
          rw [if_pos rfl] at h1
          by_cases hyz : x = z
          · subst hyz
            rw [if_pos rfl] at h2
            rw [if_pos rfl]
            exact ih ys zs h1 h2
          · rw [if_neg hyz] at h2
            rw [if_neg hyz]
            exact h2
        · rw [if_neg hxy] at h1
          have hlt1 : x < y := of_decide_eq_true h1
          by_cases hyz : y = z
          · rw [if_neg (fun hc => hxy (hc.trans hyz.symm))]
            exact decide_eq_true (hyz ▸ hlt1)
          · rw [if_neg hyz] at h2
            have hlt2 : y < z := of_decide_eq_true h2
            have hlt : x < z := lt_trans hlt1 hlt2
            rw [if_neg (ne_of_lt hlt)]
            exact decide_eq_true hlt

instance : IsTrans VersionEntry versionGe :=
  ⟨fun _ _ _ h1 h2 => charListLe_trans _ _ _ h2 h1⟩

instance : IsTotal VersionEntry versionGe :=
  ⟨fun a b => by
    unfold versionGe pyStrLe
    exact charListLe_total b.version.toList a.version.toList⟩

/-- Three same-package assets declaring versions 1.2.0, 1.9.0, 1.10.0
in insertion order (C4 example). -/
def c4Items : List (Option String × AssetIn) :=
  [(none,
    { assetName := "a.zip", sha := "s", size := 3,
      manifest := { identifier := some "i", version := some "1.2.0" } }),
   (none,
    { assetName := "b.zip", sha := "t", size := 4,
      manifest := { identifier := some "i", version := some "1.9.0" } }),
   (none,
    { assetName := "c.zip", sha := "u", size := 5,
      manifest := { identifier := some "i", version := some "1.10.0" } })]

/-- A throwaway default package (for `headD`). -/
def dfltPkg : Package :=
  { identifier := "", name := "", type := "", description := "", description_full := none,
    license := "", author := none, maintainer := none, resources := [], versions := [] }

/-- C4: after a release scan every package's version list is pairwise
descending under plain lexicographic (code-point) string comparison of
the raw version strings, and the inserted versions
`["1.2.0", "1.9.0", "1.10.0"]` end up stored as
`["1.9.0", "1.2.0", "1.10.0"]`. -/
theorem release_scan_versions_sorted_lex_desc :
    (∀ (env : ScanEnv) (srcId repo : String) (items : List (Option String × AssetIn))
       (p : Package), p ∈ buildFromReleaseScan env srcId repo items →
       List.Pairwise versionGe p.versions)
    ∧ (buildFromReleaseScan noAssets "src" "o/r" c4Items).map
        (fun p => p.versions.map (fun v => v.version)) = [["1.9.0", "1.2.0", "1.10.0"]] := by
  constructor
  · intro env srcId repo items p hp
    unfold buildFromReleaseScan finalizeScan at hp
    rcases List.mem_map.mp hp with ⟨kv, _, hpe⟩
    rw [← hpe]
    dsimp only
    unfold sortVersionsDesc
    exact List.sorted_insertionSort versionGe kv.2.versions
  · rfl

/-- C4 witness: the sortedness part applied to the concrete three-asset
scan. -/
theorem release_scan_versions_sorted_lex_desc_witness :
    List.Pairwise versionGe
      ((buildFromReleaseScan noAssets "src" "o/r" c4Items).headD dfltPkg).versions :=
  release_scan_versions_sorted_lex_desc.1 noAssets "src" "o/r" c4Items
    ((buildFromReleaseScan noAssets "src" "o/r" c4Items).headD dfltPkg)
    (List.mem_cons_self _ _)

/-! ### Version-string computation (C6) and install_size handling (C7) -/

/-- Tag fallback of the amended C6 rule, stated from the claim's words:
a present non-empty tag loses all leading `v` characters and
surrounding whitespace, otherwise the literal `0.0.0`. -/
def specTagFallback : Option String → String
  | some t => if t = "" then "0.0.0" else pyStrip (pyLstripV t)
  | none => "0.0.0"

/-- The amended C6 rule stated from the claim's words: the declared
version stripped of surrounding whitespace when present and non-empty,
else the tag fallback. -/
def specVersionRule (m : ManifestM) (tag : Option String) : String :=
  match m.version with
  | some s => if s = "" then specTagFallback tag else pyStrip s
  | none => specTagFallback tag

/-- Asset whose manifest declares version `" 1.0 "` with surrounding
whitespace (C6 counterexample). -/
def c6Asset : AssetIn :=
  { assetName := "a.zip", sha := "s", size := 1,
    manifest := { identifier := some "i", version := some " 1.0 " } }

/-- C6 counterexample: a declared version `" 1.0 "` (present and
non-empty) is recorded as `"1.0"`, not as the declared string — the
code strips surrounding whitespace, which the claim omits. -/
theorem computeVersion_claim_counterexample :
    (buildFromReleaseScan noAssets "src" "o/r" [(none, c6Asset)]).map
        (fun p => p.versions.map (fun v => v.version)) = [["1.0"]]
    ∧ c6Asset.manifest.version = some " 1.0 "
    ∧ (" 1.0 " : String) ≠ "1.0" :=
  ⟨rfl, rfl, by decide⟩

lemma pyStrip_000 : pyStrip "0.0.0" = "0.0.0" := rfl

/-- C6 (corrected): the recorded version string equals the manifest's
declared version stripped of surrounding whitespace when present and
non-empty; otherwise, when the release tag is present and non-empty,
the tag with all leading `v` characters removed and surrounding
whitespace stripped; otherwise the literal `0.0.0`. -/
theorem computeVersion_amended (m : ManifestM) (tag : Option String) :
    computeVersion m tag = specVersionRule m tag := by
  unfold computeVersion pyOrS specVersionRule specTagFallback
  cases m.version with
  | none =>
    cases tag with
    | none => rfl
    | some t =>
      by_cases ht : t = ""
      · simp [ht, pyStrip_000]
      · simp [ht]
  | some s =>
    by_cases hs : s = ""
    · cases tag with
      | none => simp [hs, pyStrip_000]
      | some t =>
        by_cases ht : t = ""
        · simp [hs, ht, pyStrip_000]
        · simp [hs, ht]
    · simp [hs]

/-- Asset whose manifest declares `install_size` as the integer 0
(C7 counterexample). -/
def c7Asset : AssetIn :=
  { assetName := "a.zip", sha := "s", size := 1,
    manifest := { identifier := some "i", version := some "1.0",
                  install_size := some (.jint 0) } }

/-- C7 counterexample: `install_size` 0 is a valid integer
(`int(0)` succeeds), yet the record carries no install_size, because
the code guards the conversion with Python truthiness
(`if manifest.get("install_size"):`) and 0 is falsy. -/
theorem install_size_claim_counterexample :
    (mkVersionEntry "o/r" none c7Asset "1.0").install_size = none
    ∧ c7Asset.manifest.install_size = some (.jint 0)
    ∧ pyToInt (.jint 0) = some 0
    ∧ (buildFromReleaseScan noAssets "src" "o/r" [(none, c7Asset)]).map
        (fun p => p.versions.map (fun v => v.install_size)) = [[none]] :=
  ⟨rfl, rfl, rfl, rfl⟩

/-- C7 (corrected): when the manifest's `install_size` value is truthy
and converts to an integer, the appended Version record carries that
integer; when the value is absent, falsy (such as 0 or an empty
string), or fails conversion, the install_size field is silently
dropped; in every case the Version record itself is still appended
(when its version string is new) and all its other fields do not depend
on the install_size value. -/
theorem install_size_amended :
    (∀ (o : String) (t : Option String) (a : AssetIn) (v : String) (j : JVal) (n : Int),
       a.manifest.install_size = some j → pyTruthy j = true → pyToInt j = some n →
       (mkVersionEntry o t a v).install_size = some n)
    ∧ (∀ (o : String) (t : Option String) (a : AssetIn) (v : String) (j : JVal),
       a.manifest.install_size = some j → pyToInt j = none →
       (mkVersionEntry o t a v).install_size = none)
    ∧ (∀ (o : String) (t : Option String) (a : AssetIn) (v : String) (j : Option JVal),
       ((mkVersionEntry o t { a with manifest := { a.manifest with install_size := j } } v).version
           = (mkVersionEntry o t a v).version
        ∧ (mkVersionEntry o t { a with manifest := { a.manifest with install_size := j } } v).download_url
           = (mkVersionEntry o t a v).download_url
        ∧ (mkVersionEntry o t { a with manifest := { a.manifest with install_size := j } } v).download_sha256
           = (mkVersionEntry o t a v).download_sha256
        ∧ (mkVersionEntry o t { a with manifest := { a.manifest with install_size := j } } v).download_size
           = (mkVersionEntry o t a v).download_size
        ∧ (mkVersionEntry o t { a with manifest := { a.manifest with install_size := j } } v).status
           = (mkVersionEntry o t a v).status
        ∧ (mkVersionEntry o t { a with manifest := { a.manifest with install_size := j } } v).kicad_version
           = (mkVersionEntry o t a v).kicad_version))
    ∧ (∀ (o : String) (t : Option String) (a : AssetIn) (v : String) (pkg : Package),
       (pkg.versions.any (fun e => e.version == v)) = false →
       (appendVersionIfNew o t a v pkg).versions = pkg.versions ++ [mkVersionEntry o t a v]) := by
  refine ⟨?_, ?_, ?_, ?_⟩
  · intro o t a v j n hj htr hn
    unfold mkVersionEntry
    dsimp only
    rw [hj]
    simp [htr, hn]
  · intro o t a v j hj hn
    unfold mkVersionEntry
    dsimp only
    rw [hj]
    by_cases htr : pyTruthy j = true
    · simp [htr, hn]
    · simp [htr]
  · intro o t a v j
    exact ⟨rfl, rfl, rfl, rfl, rfl, rfl⟩
  · intro o t a v pkg h
    unfold appendVersionIfNew
    rw [if_neg (by simp [h])]

/-- C7 witness: a truthy string value `"12"` converts and is recorded;
an asset with an invalid string value still produces an appended record
with no install_size. -/
theorem install_size_amended_witness :
    (mkVersionEntry "o/r" none
        { assetName := "a.zip", sha := "s", size := 1,
          manifest := { identifier := some "i", install_size := some (.jstr "12".toList) } }
        "1.0").install_size = some 12 :=
  install_size_amended.1 "o/r" none
    { assetName := "a.zip", sha := "s", size := 1,
      manifest := { identifier := some "i", install_size := some (.jstr "12".toList) } }
    "1.0" (.jstr "12".toList) 12 rfl rfl rfl

/-! ## Resource bundle packer (update_resources.py) -/

/-- The filesystem facts and operation outcomes one packer run sees; an
`Except.error` models an exception raised by that operation. -/
structure PackFs where
  assetsExists : Bool
  outZipExists : Bool
  unlinkResult : Except String Unit
  pkgDirs : List String
  zipResult : Except String Unit

/-- `update_resources.main` (lines 40-69): remove a stale bundle when
there is nothing to pack, otherwise build the zip; any step may raise. -/
def updateResourcesMain (fs : PackFs) : Except String Unit :=
  if ¬ fs.assetsExists then
    (if fs.outZipExists then fs.unlinkResult else .ok ())
  else if fs.pkgDirs = [] then
    (if fs.outZipExists then fs.unlinkResult else .ok ())
  else fs.zipResult

/-- The `__main__` guard of update_resources.py lines 72-78: run main;
on any exception print a warning and `sys.exit(0)`; a normal return
also exits with status 0. -/
def updateResourcesExitCode (fs : PackFs) : Nat :=
  match updateResourcesMain fs with
  | .ok _ => 0
  | .error _ => 0

/-- C9: whatever the filesystem state and whichever packing step
raises, the resource packer process exits with status 0. -/
theorem update_resources_always_exits_zero (fs : PackFs) :
    updateResourcesExitCode fs = 0 := by
  unfold updateResourcesExitCode
  cases updateResourcesMain fs <;> rfl

/-! ## Mirror importer selection (build_index.py lines 216-221) -/

/-- Python `dict.get` with default `None` over a parsed JSON object:
`json.loads` keeps the last duplicate key, so the last binding wins. -/
def objGet (ms : List (List Char × JVal)) (k : List Char) : JVal :=
  match ms.reverse.find? (fun kv => kv.1 == k) with
  | some kv => kv.2
  | none => .jnull

/-- Python `a or b` on JSON values. -/
def pyOrJ (a b : JVal) : JVal := if pyTruthy a then a else b

/-- The mirror importer's selection step
(`pkgs.get("packages") or pkgs.get("data") or []`): objects yield the
truthy `packages` value, else the truthy `data` value, else the empty
list; non-objects pass through unchanged. -/
def mirrorSelect (j : JVal) : JVal :=
  match j with
  | .jobj ms =>
    pyOrJ (objGet ms "packages".toList) (pyOrJ (objGet ms "data".toList) (.jarr []))
  | other => other

/-- C10: an object's truthy `packages` value is returned; a falsy
`packages` (absent or empty) falls through to a truthy `data` value;
when both are falsy the empty list is returned. In particular an object
whose `packages` key maps to an empty list falls through to `data`, and
an object with neither key yields the empty list rather than an error. -/
theorem mirror_select_packages_data_fallback :
    (∀ (ms : List (List Char × JVal)),
       pyTruthy (objGet ms "packages".toList) = true →
       mirrorSelect (.jobj ms) = objGet ms "packages".toList)
    ∧ (∀ (ms : List (List Char × JVal)),
       pyTruthy (objGet ms "packages".toList) = false →
       pyTruthy (objGet ms "data".toList) = true →
       mirrorSelect (.jobj ms) = objGet ms "data".toList)
    ∧ (∀ (ms : List (List Char × JVal)),
       pyTruthy (objGet ms "packages".toList) = false →
       pyTruthy (objGet ms "data".toList) = false →
       mirrorSelect (.jobj ms) = .jarr [])
    ∧ mirrorSelect (.jobj [("packages".toList, .jarr []), ("data".toList, .jarr [.jnull])])
        = .jarr [.jnull]
    ∧ mirrorSelect (.jobj [("other".toList, .jint 1)]) = .jarr [] := by
  refine ⟨?_, ?_, ?_, by rfl, by rfl⟩
  · intro ms h
    unfold mirrorSelect pyOrJ
    dsimp only
    rw [if_pos h]
  · intro ms h1 h2
    unfold mirrorSelect pyOrJ
    dsimp only
    have h1e : pyTruthy (objGet ms ['p', 'a', 'c', 'k', 'a', 'g', 'e', 's']) = false := h1
    rw [if_neg (by simp [h1e]), if_pos h2]
  · intro ms h1 h2
    unfold mirrorSelect pyOrJ
    dsimp only
    have h1e : pyTruthy (objGet ms ['p', 'a', 'c', 'k', 'a', 'g', 'e', 's']) = false := h1
    have h2e : pyTruthy (objGet ms ['d', 'a', 't', 'a']) = false := h2
    rw [if_neg (by simp [h1e]), if_neg (by simp [h2e])]

/-- C10 witness: the fall-through rule applied to a concrete object
whose `packages` is the empty list and whose `data` is non-empty. -/
theorem mirror_select_packages_data_fallback_witness :
    mirrorSelect (.jobj [("packages".toList, .jarr []), ("data".toList, .jarr [.jint 7])])
      = objGet [("packages".toList, .jarr []), ("data".toList, .jarr [.jint 7])] "data".toList :=
  mirror_select_packages_data_fallback.2.1
    [("packages".toList, .jarr []), ("data".toList, .jarr [.jint 7])] rfl rfl

/-! ## Index writer (build_index.py lines 225-266) -/

/-- Lowercase hex digit. -/
def hexDigit (n : Nat) : Char :=
  if n < 10 then Char.ofNat (48 + n) else Char.ofNat (87 + n)

/-- JSON string escaping as `json.dump` with `ensure_ascii=False`
performs it: quote, backslash and control characters are escaped,
everything else is emitted as-is. -/
def jsonEscapeChar (c : Char) : String :=
  if c = '"' then "\\\""
  else if c = '\\' then "\\\\"
  else if c = '\n' then "\\n"
  else if c = '\t' then "\\t"
  else if c = '\r' then "\\r"
  else if c = Char.ofNat 8 then "\\b"
  else if c = Char.ofNat 12 then "\\f"
  else if c.val < 32 then
    String.mk ['\\', 'u', '0', '0', hexDigit (c.toNat / 16), hexDigit (c.toNat % 16)]
  else String.singleton c

/-- Escape a whole string body. -/
def jsonEscape (s : List Char) : String := String.join (s.map jsonEscapeChar)

/-- A run of spaces. -/
def spaces (n : Nat) : String := String.mk (List.replicate n ' ')

/-- `json.dump(..., indent=2, ensure_ascii=False)` rendering of a JSON
value at a given indentation level. The fuel argument only bounds the
nesting depth; every call site passes the value's `sizeOf`, which
strictly exceeds its nesting depth, so the zero-fuel branch is
unreachable. -/
def renderJ : Nat → Nat → JVal → String
  | 0, _, _ => ""
  | _ + 1, _, .jnull => "null"
  | _ + 1, _, .jbool true => "true"
  | _ + 1, _, .jbool false => "false"
  | _ + 1, _, .jint n => toString n
  | _ + 1, _, .jstr s => "\"" ++ jsonEscape s ++ "\""
  | _ + 1, _, .jarr [] => "[]"
  | fuel + 1, ind, .jarr (x :: xs) =>
    "[\n"
      ++ String.intercalate ",\n"
        ((x :: xs).map (fun e => spaces (ind + 2) ++ renderJ fuel (ind + 2) e))
      ++ "\n" ++ spaces ind ++ "]"
  | _ + 1, _, .jobj [] => "\x7b\x7d"
  | fuel + 1, ind, .jobj (m :: ms) =>
    "\x7b\n"
      ++ String.intercalate ",\n"
        ((m :: ms).map (fun e =>
          spaces (ind + 2) ++ "\"" ++ jsonEscape e.1 ++ "\": " ++ renderJ fuel (ind + 2) e.2))
      ++ "\n" ++ spaces ind ++ "\x7d"

/-- One Version record as the dict the code builds (insertion order of
build_index.py lines 187-200; `install_size` appended last when kept). -/
def versionToJVal (v : VersionEntry) : JVal :=
  .jobj ([("version".toList, .jstr v.version.toList),
          ("download_url".toList, .jstr v.download_url.toList),
          ("download_sha256".toList, .jstr v.download_sha256.toList),
          ("download_size".toList, .jint v.download_size),
          ("status".toList, .jstr v.status.toList),
          ("kicad_version".toList, .jstr v.kicad_version.toList)]
    ++ (match v.install_size with
        | some n => [("install_size".toList, .jint n)]
        | none => []))

/-- One Package record as the dict the code builds (insertion order of
build_index.py lines 153-167, optional keys present only when set). -/
def packageToJVal (p : Package) : JVal :=
  .jobj ([("$schema".toList, .jstr "https://go.kicad.org/pcm/schemas/v1".toList),
          ("identifier".toList, .jstr p.identifier.toList),
          ("name".toList, .jstr p.name.toList),
          ("type".toList, .jstr p.type.toList),
          ("description".toList, .jstr p.description.toList)]
    ++ (match p.description_full with
        | some s => [("description_full".toList, .jstr s.toList)]
        | none => [])
    ++ [("license".toList, .jstr p.license.toList)]
    ++ (match p.author with
        | some j => [("author".toList, j)]
        | none => [])
    ++ (match p.maintainer with
        | some j => [("maintainer".toList, j)]
        | none => [])
    ++ [("resources".toList,
          .jobj (p.resources.map (fun kv => (kv.1.toList, .jstr kv.2.toList)))),
        ("versions".toList, .jarr (p.versions.map versionToJVal))])

mutual

/-- Nesting depth of a JSON value (at least 1). -/
def jdepth : JVal → Nat
  | .jnull => 1
  | .jbool _ => 1
  | .jint _ => 1
  | .jstr _ => 1
  | .jarr xs => 1 + jdepthArr xs
  | .jobj ms => 1 + jdepthObj ms

/-- Greatest nesting depth among array items. -/
def jdepthArr : List JVal → Nat
  | [] => 0
  | x :: xs => max (jdepth x) (jdepthArr xs)

/-- Greatest nesting depth among object member values. -/
def jdepthObj : List (List Char × JVal) → Nat
  | [] => 0
  | (_, v) :: ms => max (jdepth v) (jdepthObj ms)

end

/-- The exact bytes of packages.json: the `{"packages": [...]}` envelope
serialized by `json.dump(..., indent=2, ensure_ascii=False)`
(build_index.py lines 244-248). The depth passed as fuel makes the
renderer's zero-fuel branch unreachable. -/
def serializeIndex (pkgs : List Package) : String :=
  renderJ (jdepth (JVal.jobj [("packages".toList, .jarr (pkgs.map packageToJVal))])) 0
    (JVal.jobj [("packages".toList, .jarr (pkgs.map packageToJVal))])

/-- What one writer run produces: the index bytes, the recorded hash of
those bytes, and the timestamp stamped into the repository descriptor. -/
structure RunOut where
  indexBytes : String
  packagesSha : String
  updateTimestamp : Nat

/-- The index-writing section of main (build_index.py lines 244-266):
serialize the envelope, hash the exact serialized bytes just written
(line 251-252 re-reads the file), and stamp the descriptor with the
current time. The hash function is a parameter: the claim concerns what
is hashed, not SHA-256 itself. -/
def writeOutputs (sha : String → String) (pkgs : List Package) (now : Nat) : RunOut :=
  { indexBytes := serializeIndex pkgs
    packagesSha := sha (serializeIndex pkgs)
    updateTimestamp := now }

/-- Simple one-package input for the C8 serialization example. -/
def c8Pkg : Package :=
  { identifier := "i", name := "n", type := "library", description := "d",
    description_full := none, license := "", author := none, maintainer := none,
    resources := [], versions := [] }

/-- C8: the serialized index bytes are a function of the package list
alone — two runs at different times produce byte-identical index output
— and the recorded content hash is the hash of exactly those serialized
bytes; the serialization itself has the fixed two-space-indent,
stable-key-order shape shown by the two concrete outputs. -/
theorem index_writer_deterministic :
    (∀ (sha : String → String) (pkgs : List Package) (t1 t2 : Nat),
       (writeOutputs sha pkgs t1).indexBytes = (writeOutputs sha pkgs t2).indexBytes)
    ∧ (∀ (sha : String → String) (pkgs : List Package) (t : Nat),
       (writeOutputs sha pkgs t).packagesSha = sha ((writeOutputs sha pkgs t).indexBytes))
    ∧ serializeIndex [] = "\x7b\n  \"packages\": []\n\x7d"
    ∧ serializeIndex [c8Pkg]
        = "\x7b\n  \"packages\": [\n    \x7b\n      \"$schema\": \"https://go.kicad.org/pcm/schemas/v1\",\n      \"identifier\": \"i\",\n      \"name\": \"n\",\n      \"type\": \"library\",\n      \"description\": \"d\",\n      \"license\": \"\",\n      \"resources\": \x7b\x7d,\n      \"versions\": []\n    \x7d\n  ]\n\x7d" := by
  refine ⟨fun _ _ _ _ => rfl, fun _ _ _ => rfl, ?_, ?_⟩
  · unfold serializeIndex
    rw [show jdepth (JVal.jobj [("packages".toList, .jarr (([] : List Package).map packageToJVal))])
        = 2 from by simp [jdepth, jdepthArr, jdepthObj]]
    rfl
  · unfold serializeIndex
    rw [show jdepth (JVal.jobj [("packages".toList, .jarr ([c8Pkg].map packageToJVal))])
        = 4 from by simp [jdepth, jdepthArr, jdepthObj, packageToJVal, c8Pkg]]
    rfl

/-! ### Tolerant-parser correctness on comment-and-trailing-comma
manifests (C5) -/

/-- Characters allowed in the keys and string values of the C5 family:
printable, and none of quote, backslash, slash or comma, so that
neither the comment regex nor the trailing-comma regex can touch the
inside of a string literal. -/
def goodChar (c : Char) : Bool :=
  32 ≤ c.val && c != '"' && c != '\\' && c != '/' && c != ','

/-- All characters of a string are good. -/
def goodStr (s : List Char) : Bool := s.all goodChar

/-- One `"key": "value"` member. -/
def renderMember (k v : List Char) : List Char :=
  '"' :: k ++ '"' :: ':' :: ' ' :: '"' :: v ++ ['"']

/-- Subsequent members, each preceded by `, `. -/
def renderMembersTail : List (List Char × List Char) → List Char
  | [] => []
  | (k, v) :: rest => ',' :: ' ' :: (renderMember k v ++ renderMembersTail rest)

/-- The members of a flat string-valued object. -/
def renderMembers : List (List Char × List Char) → List Char
  | [] => []
  | (k, v) :: rest => renderMember k v ++ renderMembersTail rest

/-- The C5 family: a flat string-valued JSON object with a trailing
comma before the closing brace and a `//` comment line. -/
def dirtyDoc (ps : List (List Char × List Char)) (cm : List Char) : List Char :=
  Char.ofNat 123 :: renderMembers ps
    ++ ',' :: '\n' :: '/' :: '/' :: (cm ++ '\n' :: [Char.ofNat 125])

/-- The same document with the comment line and the trailing comma
removed. -/
def cleanDoc (ps : List (List Char × List Char)) : List Char :=
  Char.ofNat 123 :: renderMembers ps ++ '\n' :: [Char.ofNat 125]

/-- The object value the family denotes. -/
def mapJStr (ps : List (List Char × List Char)) : List (List Char × JVal) :=
  ps.map (fun kv => (kv.1, .jstr kv.2))

lemma skipWs_cons_not (c : Char) (s : List Char) (h : isJsonWs c = false) :
    skipWs (c :: s) = c :: s := by
  simp [skipWs, List.dropWhile_cons, h]

lemma skipWs_cons_ws (c : Char) (s : List Char) (h : isJsonWs c = true) :
    skipWs (c :: s) = skipWs s := by
  simp [skipWs, List.dropWhile_cons, h]

lemma goodChar_facts {c : Char} (h : goodChar c = true) :
    c ≠ '"' ∧ c ≠ '\\' ∧ c ≠ '/' ∧ c ≠ ',' ∧ 32 ≤ c.val := by
  rw [goodChar] at h
  simp only [Bool.and_eq_true, bne_iff_ne, decide_eq_true_eq] at h
  tauto

lemma parseStringBody_good :
    ∀ (k rest : List Char), goodStr k = true →
      parseStringBody (k ++ '"' :: rest) = some (k, rest) := by
  intro k
  induction k with
  | nil => intro rest _; rfl
  | cons c cs ih =>
    intro rest hg
    rw [goodStr, List.all_cons, Bool.and_eq_true] at hg
    obtain ⟨hc, hcs⟩ := hg
    obtain ⟨hq, hb, _, _, hval⟩ := goodChar_facts hc
    rw [List.cons_append, parseStringBody]
    have hnl : ¬ c.val < 32 := by
      intro hlt
      rw [UInt32.lt_def, BitVec.lt_def] at hlt
      rw [UInt32.le_def, BitVec.le_def] at hval
      omega
    rw [if_neg hq, if_neg hb, if_neg hnl]
    rw [ih rest hcs]
    rfl

lemma parseVal_string_case (fuel : Nat) (r : List Char) :
    parseVal (fuel + 1) ('"' :: r)
      = (parseStringBody r).map (fun pr => (.jstr pr.1, pr.2)) := rfl

lemma parseVal_ws (fuel : Nat) (c : Char) (s : List Char) (h : isJsonWs c = true) :
    parseVal (fuel + 1) (c :: s) = parseVal (fuel + 1) s := by
  have hs : skipWs (c :: s) = skipWs s := skipWs_cons_ws c s h
  rw [parseVal, hs]
  conv_rhs => rw [parseVal]

lemma parseMembers_ws (fuel : Nat) (c : Char) (s : List Char) (h : isJsonWs c = true) :
    parseMembers fuel (c :: s) = parseMembers fuel s := by
  cases fuel with
  | zero => rfl
  | succ f =>
    have hs : skipWs (c :: s) = skipWs s := skipWs_cons_ws c s h
    rw [parseMembers, hs]
    conv_rhs => rw [parseMembers]

lemma parseMembers_not_quote (fuel : Nat) (s : List Char) (c : Char) (r : List Char)
    (h : skipWs s = c :: r) (hc : ¬ c = '"') :
    parseMembers fuel s = none := by
  cases fuel with
  | zero => rfl
  | succ f =>
    rw [parseMembers, h]
    dsimp only
    rw [if_neg hc]

lemma parseMembers_member_step (f : Nat) (k v X : List Char)
    (hk : goodStr k = true) (hv : goodStr v = true) :
    parseMembers (f + 2) (renderMember k v ++ X)
      = (match skipWs X with
         | [] => none
         | c3 :: r3 =>
           if c3 = ',' then
             (parseMembers (f + 1) r3).map (fun pm => ((k, JVal.jstr v) :: pm.1, pm.2))
           else if c3 = Char.ofNat 125 then some ([(k, JVal.jstr v)], r3)
           else none) := by
  have hshape : renderMember k v ++ X
      = '"' :: (k ++ '"' :: ':' :: ' ' :: '"' :: (v ++ '"' :: X)) := by
    simp [renderMember, List.append_assoc]
  rw [hshape]
  rw [show f + 2 = (f + 1) + 1 from rfl]
  rw [parseMembers]
  rw [skipWs_cons_not _ _ (by decide)]
  dsimp only
  rw [if_pos rfl]
  rw [parseStringBody_good k _ hk]
  dsimp only [Option.bind]
  rw [skipWs_cons_not _ _ (by decide)]
  dsimp only
  rw [if_pos rfl]
  rw [parseVal_ws _ _ _ (by decide)]
  rw [parseVal_string_case]
  rw [parseStringBody_good v _ hv]
  dsimp only [Option.map, Option.bind]

lemma parseMembers_run_clean :
    ∀ (ps : List (List Char × List Char)) (k v : List Char) (f : Nat) (T rest2 : List Char),
      goodStr k = true → goodStr v = true →
      ps.all (fun kv => goodStr kv.1 && goodStr kv.2) = true →
      ps.length ≤ f →
      skipWs T = Char.ofNat 125 :: rest2 →
      parseMembers (f + 2) (renderMember k v ++ (renderMembersTail ps ++ T))
        = some ((k, JVal.jstr v) :: mapJStr ps, rest2) := by
  intro ps
  induction ps with
  | nil =>
    intro k v f T rest2 hk hv _ _ hT
    rw [show renderMembersTail [] ++ T = T from by rw [renderMembersTail]; rfl]
    rw [parseMembers_member_step f k v T hk hv]
    rw [hT]
    dsimp only
    rw [if_neg (by decide), if_pos rfl]
    rfl
  | cons kv2 ps2 ih =>
    intro k v f T rest2 hk hv hps hlen hT
    obtain ⟨k2, v2⟩ := kv2
    rw [List.all_cons, Bool.and_eq_true] at hps
    obtain ⟨hkv2, hps2⟩ := hps
    rw [Bool.and_eq_true] at hkv2
    have hshape : renderMembersTail ((k2, v2) :: ps2) ++ T
        = ',' :: ' ' :: (renderMember k2 v2 ++ (renderMembersTail ps2 ++ T)) := by
      rw [renderMembersTail]
      simp [List.append_assoc]
    rw [hshape]
    rw [parseMembers_member_step f k v _ hk hv]
    rw [skipWs_cons_not _ _ (by decide)]
    dsimp only
    rw [if_pos rfl]
    obtain ⟨f2, rfl⟩ : ∃ f2, f = f2 + 1 := by
      refine ⟨f - 1, ?_⟩
      simp only [List.length_cons] at hlen
      omega
    rw [parseMembers_ws _ _ _ (by decide)]
    rw [ih k2 v2 f2 T rest2 hkv2.1 hkv2.2 hps2
      (by simp only [List.length_cons] at hlen; omega) hT]
    rfl

lemma parseMembers_run_dirty :
    ∀ (ps : List (List Char × List Char)) (k v : List Char) (f : Nat) (D r3 : List Char)
      (c : Char) (r4 : List Char),
      goodStr k = true → goodStr v = true →
      ps.all (fun kv => goodStr kv.1 && goodStr kv.2) = true →
      ps.length ≤ f →
      skipWs D = ',' :: r3 →
      skipWs r3 = c :: r4 →
      ¬ c = '"' →
      parseMembers (f + 2) (renderMember k v ++ (renderMembersTail ps ++ D)) = none := by
  intro ps
  induction ps with
  | nil =>
    intro k v f D r3 c r4 hk hv _ _ hD hr3 hc
    rw [show renderMembersTail [] ++ D = D from by rw [renderMembersTail]; rfl]
    rw [parseMembers_member_step f k v D hk hv]
    rw [hD]
    dsimp only
    rw [if_pos rfl]
    rw [parseMembers_not_quote (f + 1) r3 c r4 hr3 hc]
    rfl
  | cons kv2 ps2 ih =>
    intro k v f D r3 c r4 hk hv hps hlen hD hr3 hc
    obtain ⟨k2, v2⟩ := kv2
    rw [List.all_cons, Bool.and_eq_true] at hps
    obtain ⟨hkv2, hps2⟩ := hps
    rw [Bool.and_eq_true] at hkv2
    have hshape : renderMembersTail ((k2, v2) :: ps2) ++ D
        = ',' :: ' ' :: (renderMember k2 v2 ++ (renderMembersTail ps2 ++ D)) := by
      rw [renderMembersTail]
      simp [List.append_assoc]
    rw [hshape]
    rw [parseMembers_member_step f k v _ hk hv]
    rw [skipWs_cons_not _ _ (by decide)]
    dsimp only
    rw [if_pos rfl]
    obtain ⟨f2, rfl⟩ : ∃ f2, f = f2 + 1 := by
      refine ⟨f - 1, ?_⟩
      simp only [List.length_cons] at hlen
      omega
    rw [parseMembers_ws _ _ _ (by decide)]
    rw [ih k2 v2 f2 D r3 c r4 hkv2.1 hkv2.2 hps2
      (by simp only [List.length_cons] at hlen; omega) hD hr3 hc]
    rfl

lemma renderMembersTail_len_ge : ∀ ps : List (List Char × List Char),
    ps.length ≤ (renderMembersTail ps).length := by
  intro ps
  induction ps with
  | nil => simp [renderMembersTail]
  | cons kv ps2 ih =>
    obtain ⟨k, v⟩ := kv
    rw [renderMembersTail]
    simp only [List.length_cons, List.length_append]
    omega

lemma renderMember_len (k v : List Char) :
    (renderMember k v).length = k.length + v.length + 6 := by
  rw [renderMember]
  simp only [List.length_cons, List.length_append, List.length_nil]
  omega

lemma pyJsonLoads_flat_obj :
    ∀ (ps : List (List Char × List Char)) (T : List Char),
      ps.all (fun kv => goodStr kv.1 && goodStr kv.2) = true →
      skipWs T = [Char.ofNat 125] →
      pyJsonLoads (Char.ofNat 123 :: renderMembers ps ++ T) = some (.jobj (mapJStr ps)) := by
  intro ps T hps hT
  unfold pyJsonLoads
  cases ps with
  | nil =>
    rw [show renderMembers [] = [] from rfl]
    simp only [List.cons_append, List.nil_append, List.length_cons]
    rw [parseVal]
    rw [skipWs_cons_not _ _ (by decide)]
    dsimp only
    rw [if_neg (by decide), if_neg (by decide), if_neg (by decide), if_neg (by decide),
      if_pos rfl]
    rw [hT]
    dsimp only [List.headD, List.tail]
    rw [if_pos rfl]
    rfl
  | cons kv ps2 =>
    obtain ⟨k, v⟩ := kv
    rw [List.all_cons, Bool.and_eq_true] at hps
    obtain ⟨hkv, hps2⟩ := hps
    rw [Bool.and_eq_true] at hkv
    have hshape : renderMembers ((k, v) :: ps2) ++ T
        = renderMember k v ++ (renderMembersTail ps2 ++ T) := by
      rw [renderMembers]
      simp [List.append_assoc]
    simp only [List.cons_append, List.length_cons]
    rw [hshape]
    have hcons : renderMember k v ++ (renderMembersTail ps2 ++ T)
        = '"' :: (k ++ '"' :: ':' :: ' ' :: '"' :: (v ++ '"' :: (renderMembersTail ps2 ++ T))) := by
      simp [renderMember, List.append_assoc]
    rw [parseVal]
    rw [skipWs_cons_not _ _ (by decide)]
    dsimp only
    rw [if_neg (by decide), if_neg (by decide), if_neg (by decide), if_neg (by decide),
      if_pos rfl]
    have hskipR : skipWs (renderMember k v ++ (renderMembersTail ps2 ++ T))
        = '"' :: (k ++ '"' :: ':' :: ' ' :: '"' :: (v ++ '"' :: (renderMembersTail ps2 ++ T))) := by
      rw [hcons]
      exact skipWs_cons_not _ _ (by decide)
    rw [hskipR]
    dsimp only [List.headD]
    rw [if_neg (by decide)]
    obtain ⟨f, hf, hfge⟩ : ∃ f,
        (renderMember k v ++ (renderMembersTail ps2 ++ T)).length + 1 = f + 2
          ∧ ps2.length ≤ f := by
      refine ⟨(renderMember k v ++ (renderMembersTail ps2 ++ T)).length - 1, ?_, ?_⟩ <;>
      · have h1 := renderMembersTail_len_ge ps2
        have h2 := renderMember_len k v
        simp only [List.length_append]
        omega
    rw [hf]
    rw [parseMembers_run_clean ps2 k v f T [] hkv.1 hkv.2 hps2 hfge hT]
    rfl

lemma commentSub_nil : commentSub [] = [] := by
  rw [commentSub.eq_def]

lemma commentSub_cons_neg (c : Char) (cs : List Char) (h : ¬ c = '/') :
    commentSub (c :: cs) = c :: commentSub cs := by
  rw [commentSub.eq_def]
  dsimp only
  rw [if_neg (fun hc => h hc.1), if_neg (fun hc => h hc.1)]

lemma commentSub_no_slash_append :
    ∀ (p rest : List Char), p.all (fun c => c != '/') = true →
      commentSub (p ++ rest) = p ++ commentSub rest := by
  intro p
  induction p with
  | nil => intro rest _; rfl
  | cons c cs ih =>
    intro rest hp
    rw [List.all_cons, Bool.and_eq_true] at hp
    rw [List.cons_append, commentSub_cons_neg c _ (by simpa using hp.1), ih rest hp.2,
      List.cons_append]

lemma commentSub_line (cs : List Char) (h : cs.headD ' ' = '/') :
    commentSub ('/' :: cs) = commentSub (cs.tail.dropWhile (fun d => d != '\n')) := by
  rw [commentSub.eq_def]
  dsimp only
  rw [if_pos ⟨rfl, h⟩]

lemma dropWhile_no_nl (X : List Char) :
    ∀ p : List Char, p.all (fun c => c != '\n') = true →
      ((p ++ '\n' :: X).dropWhile (fun d => d != '\n')) = '\n' :: X := by
  intro p
  induction p with
  | nil =>
    intro _
    rw [List.nil_append, List.dropWhile_cons]
    simp
  | cons c cs ih =>
    intro hp
    rw [List.all_cons, Bool.and_eq_true] at hp
    rw [List.cons_append, List.dropWhile_cons, if_pos hp.1]
    exact ih hp.2

lemma goodStr_no_slash {s : List Char} (h : goodStr s = true) :
    s.all (fun c => c != '/') = true := by
  rw [goodStr, List.all_eq_true] at h
  rw [List.all_eq_true]
  intro c hc
  have h2 := goodChar_facts (h c hc)
  simpa using h2.2.2.1

lemma goodStr_no_comma {s : List Char} (h : goodStr s = true) :
    s.all (fun c => c != ',') = true := by
  rw [goodStr, List.all_eq_true] at h
  rw [List.all_eq_true]
  intro c hc
  have h2 := goodChar_facts (h c hc)
  simpa using h2.2.2.2.1

lemma renderMember_no_slash {k v : List Char} (hk : goodStr k = true)
    (hv : goodStr v = true) :
    (renderMember k v).all (fun c => c != '/') = true := by
  rw [renderMember]
  simp only [List.all_append, List.all_cons, List.all_nil,
    goodStr_no_slash hk, goodStr_no_slash hv]
  decide

lemma renderMember_no_comma {k v : List Char} (hk : goodStr k = true)
    (hv : goodStr v = true) :
    (renderMember k v).all (fun c => c != ',') = true := by
  rw [renderMember]
  simp only [List.all_append, List.all_cons, List.all_nil,
    goodStr_no_comma hk, goodStr_no_comma hv]
  decide

lemma renderMembersTail_no_slash :
    ∀ ps : List (List Char × List Char),
      ps.all (fun kv => goodStr kv.1 && goodStr kv.2) = true →
      (renderMembersTail ps).all (fun c => c != '/') = true := by
  intro ps
  induction ps with
  | nil => intro _; rfl
  | cons kv ps2 ih =>
    intro hps
    obtain ⟨k, v⟩ := kv
    rw [List.all_cons, Bool.and_eq_true] at hps
    obtain ⟨hkv, hps2⟩ := hps
    rw [Bool.and_eq_true] at hkv
    rw [renderMembersTail]
    simp only [List.all_cons, List.all_append, Bool.and_eq_true]
    exact ⟨by decide, by decide, renderMember_no_slash hkv.1 hkv.2, ih hps2⟩

lemma renderMembers_no_slash :
    ∀ ps : List (List Char × List Char),
      ps.all (fun kv => goodStr kv.1 && goodStr kv.2) = true →
      (renderMembers ps).all (fun c => c != '/') = true := by
  intro ps hps
  cases ps with
  | nil => rfl
  | cons kv ps2 =>
    obtain ⟨k, v⟩ := kv
    rw [List.all_cons, Bool.and_eq_true] at hps
    obtain ⟨hkv, hps2⟩ := hps
    rw [Bool.and_eq_true] at hkv
    rw [renderMembers]
    simp only [List.all_append, Bool.and_eq_true]
    exact ⟨renderMember_no_slash hkv.1 hkv.2, renderMembersTail_no_slash ps2 hps2⟩

lemma commentSub_dirty (ps : List (List Char × List Char)) (cm : List Char)
    (hps : ps.all (fun kv => goodStr kv.1 && goodStr kv.2) = true)
    (hnl : cm.all (fun c => c != '\n') = true) :
    commentSub (dirtyDoc ps cm)
      = Char.ofNat 123 :: renderMembers ps ++ ',' :: '\n' :: '\n' :: [Char.ofNat 125] := by
  have hshape : dirtyDoc ps cm
      = (Char.ofNat 123 :: (renderMembers ps ++ [',', '\n']))
          ++ ('/' :: ('/' :: (cm ++ '\n' :: [Char.ofNat 125]))) := by
    rw [dirtyDoc]
    simp [List.append_assoc]
  rw [hshape]
  rw [commentSub_no_slash_append _ _ (by
    simp only [List.all_cons, List.all_append, List.all_nil, Bool.and_eq_true]
    exact ⟨by decide, renderMembers_no_slash ps hps, by decide, by decide, trivial⟩)]
  rw [commentSub_line _ (by rfl)]
  rw [show ('/' :: (cm ++ '\n' :: [Char.ofNat 125])).tail = cm ++ '\n' :: [Char.ofNat 125]
    from rfl]
  rw [dropWhile_no_nl _ cm hnl]
  rw [commentSub_cons_neg _ _ (by decide), commentSub_cons_neg _ _ (by decide), commentSub_nil]
  simp [List.append_assoc]

lemma commaSub_nil : commaSub [] = [] := by
  rw [commaSub.eq_def]

lemma commaSub_cons_neg (c : Char) (cs : List Char) (h : ¬ c = ',') :
    commaSub (c :: cs) = c :: commaSub cs := by
  rw [commaSub.eq_def]
  dsimp only
  rw [if_neg h]

lemma commaSub_no_comma_append :
    ∀ (p rest : List Char), p.all (fun c => c != ',') = true →
      commaSub (p ++ rest) = p ++ commaSub rest := by
  intro p
  induction p with
  | nil => intro rest _; rfl
  | cons c cs ih =>
    intro rest hp
    rw [List.all_cons, Bool.and_eq_true] at hp
    rw [List.cons_append, commaSub_cons_neg c _ (by simpa using hp.1), ih rest hp.2,
      List.cons_append]

lemma commaSub_sep (cs : List Char) (h : (cs.dropWhile isPyWs).headD ' ' = '"') :
    commaSub (',' :: cs) = ',' :: commaSub cs := by
  rw [commaSub.eq_def]
  dsimp only
  rw [if_pos rfl]
  rw [if_neg (by
    intro hor
    rcases hor with h1 | h1 <;> rw [h] at h1 <;> exact absurd h1 (by decide))]

lemma commaSub_end :
    commaSub (',' :: '\n' :: '\n' :: [Char.ofNat 125]) = [Char.ofNat 125] := by
  rw [commaSub.eq_def]
  dsimp only
  rw [if_pos rfl]
  rw [show (('\n' :: '\n' :: [Char.ofNat 125]).dropWhile isPyWs) = [Char.ofNat 125] from rfl]
  dsimp only [List.headD, List.tail]
  rw [if_pos (Or.inl rfl)]
  rw [commaSub_nil]

lemma commaSub_tail_end :
    ∀ ps : List (List Char × List Char),
      ps.all (fun kv => goodStr kv.1 && goodStr kv.2) = true →
      commaSub (renderMembersTail ps ++ ',' :: '\n' :: '\n' :: [Char.ofNat 125])
        = renderMembersTail ps ++ [Char.ofNat 125] := by
  intro ps
  induction ps with
  | nil =>
    intro _
    rw [show renderMembersTail [] = [] from rfl]
    rw [List.nil_append, List.nil_append]
    exact commaSub_end
  | cons kv ps2 ih =>
    intro hps
    obtain ⟨k, v⟩ := kv
    rw [List.all_cons, Bool.and_eq_true] at hps
    obtain ⟨hkv, hps2⟩ := hps
    rw [Bool.and_eq_true] at hkv
    have hshape : renderMembersTail ((k, v) :: ps2) ++ ',' :: '\n' :: '\n' :: [Char.ofNat 125]
        = ',' :: ' ' :: (renderMember k v
            ++ (renderMembersTail ps2 ++ ',' :: '\n' :: '\n' :: [Char.ofNat 125])) := by
      rw [renderMembersTail]
      simp [List.append_assoc]
    rw [hshape]
    have hcons : renderMember k v
          ++ (renderMembersTail ps2 ++ ',' :: '\n' :: '\n' :: [Char.ofNat 125])
        = '"' :: (k ++ '"' :: ':' :: ' ' :: '"' :: (v ++ '"'
            :: (renderMembersTail ps2 ++ ',' :: '\n' :: '\n' :: [Char.ofNat 125]))) := by
      simp [renderMember, List.append_assoc]
    rw [commaSub_sep _ (by
      rw [List.dropWhile_cons, if_pos (by decide)]
      rw [hcons, List.dropWhile_cons, if_neg (by decide)]
      rfl)]
    rw [commaSub_cons_neg _ _ (by decide)]
    rw [commaSub_no_comma_append _ _ (renderMember_no_comma hkv.1 hkv.2)]
    rw [ih hps2]
    rw [renderMembersTail]
    simp [List.append_assoc]

lemma commaSub_whole (ps : List (List Char × List Char))
    (hps : ps.all (fun kv => goodStr kv.1 && goodStr kv.2) = true) :
    commaSub (Char.ofNat 123 :: renderMembers ps ++ ',' :: '\n' :: '\n' :: [Char.ofNat 125])
      = Char.ofNat 123 :: renderMembers ps ++ [Char.ofNat 125] := by
  cases ps with
  | nil =>
    rw [show renderMembers [] = [] from rfl]
    simp only [List.cons_append, List.nil_append]
    rw [commaSub_cons_neg _ _ (by decide), commaSub_end]
  | cons kv ps2 =>
    obtain ⟨k, v⟩ := kv
    rw [List.all_cons, Bool.and_eq_true] at hps
    obtain ⟨hkv, hps2⟩ := hps
    rw [Bool.and_eq_true] at hkv
    have hshape : renderMembers ((k, v) :: ps2) ++ ',' :: '\n' :: '\n' :: [Char.ofNat 125]
        = renderMember k v
            ++ (renderMembersTail ps2 ++ ',' :: '\n' :: '\n' :: [Char.ofNat 125]) := by
      rw [renderMembers]
      simp [List.append_assoc]
    simp only [List.cons_append]
    rw [hshape]
    rw [commaSub_cons_neg _ _ (by decide)]
    rw [commaSub_no_comma_append _ _ (renderMember_no_comma hkv.1 hkv.2)]
    rw [commaSub_tail_end ps2 hps2]
    rw [renderMembers]
    simp [List.append_assoc]

lemma pyJsonLoads_dirty_none (ps : List (List Char × List Char)) (cm : List Char)
    (hps : ps.all (fun kv => goodStr kv.1 && goodStr kv.2) = true) :
    pyJsonLoads (dirtyDoc ps cm) = none := by
  unfold pyJsonLoads dirtyDoc
  cases ps with
  | nil =>
    rw [show renderMembers [] = [] from rfl]
    simp only [List.cons_append, List.nil_append, List.length_cons]
    rw [parseVal]
    rw [skipWs_cons_not _ _ (by decide)]
    dsimp only
    rw [if_neg (by decide), if_neg (by decide), if_neg (by decide), if_neg (by decide),
      if_pos rfl]
    rw [skipWs_cons_not _ _ (by decide)]
    dsimp only [List.headD]
    rw [if_neg (by decide)]
    rw [parseMembers_not_quote _ _ ','
      ('\n' :: '/' :: '/' :: (cm ++ '\n' :: [Char.ofNat 125]))
      (skipWs_cons_not _ _ (by decide)) (by decide)]
    rfl
  | cons kv ps2 =>
    obtain ⟨k, v⟩ := kv
    rw [List.all_cons, Bool.and_eq_true] at hps
    obtain ⟨hkv, hps2⟩ := hps
    rw [Bool.and_eq_true] at hkv
    have hshape : renderMembers ((k, v) :: ps2)
          ++ ',' :: '\n' :: '/' :: '/' :: (cm ++ '\n' :: [Char.ofNat 125])
        = renderMember k v ++ (renderMembersTail ps2
            ++ ',' :: '\n' :: '/' :: '/' :: (cm ++ '\n' :: [Char.ofNat 125])) := by
      rw [renderMembers]
      simp [List.append_assoc]
    simp only [List.cons_append, List.length_cons]
    rw [hshape]
    have hcons : renderMember k v ++ (renderMembersTail ps2
          ++ ',' :: '\n' :: '/' :: '/' :: (cm ++ '\n' :: [Char.ofNat 125]))
        = '"' :: (k ++ '"' :: ':' :: ' ' :: '"' :: (v ++ '"' :: (renderMembersTail ps2
            ++ ',' :: '\n' :: '/' :: '/' :: (cm ++ '\n' :: [Char.ofNat 125])))) := by
      simp [renderMember, List.append_assoc]
    rw [parseVal]
    rw [skipWs_cons_not _ _ (by decide)]
    dsimp only
    rw [if_neg (by decide), if_neg (by decide), if_neg (by decide), if_neg (by decide),
      if_pos rfl]
    have hskipR : skipWs (renderMember k v ++ (renderMembersTail ps2
          ++ ',' :: '\n' :: '/' :: '/' :: (cm ++ '\n' :: [Char.ofNat 125])))
        = '"' :: (k ++ '"' :: ':' :: ' ' :: '"' :: (v ++ '"' :: (renderMembersTail ps2
            ++ ',' :: '\n' :: '/' :: '/' :: (cm ++ '\n' :: [Char.ofNat 125])))) := by
      rw [hcons]
      exact skipWs_cons_not _ _ (by decide)
    rw [hskipR]
    dsimp only [List.headD]
    rw [if_neg (by decide)]
    obtain ⟨f, hf, hfge⟩ : ∃ f,
        (renderMember k v ++ (renderMembersTail ps2
            ++ ',' :: '\n' :: '/' :: '/' :: (cm ++ '\n' :: [Char.ofNat 125]))).length + 1
          = f + 2
          ∧ ps2.length ≤ f := by
      refine ⟨(renderMember k v ++ (renderMembersTail ps2
        ++ ',' :: '\n' :: '/' :: '/' :: (cm ++ '\n' :: [Char.ofNat 125]))).length - 1,
        ?_, ?_⟩ <;>
      · have h1 := renderMembersTail_len_ge ps2
        have h2 := renderMember_len k v
        simp only [List.length_append]
        omega
    rw [hf]
    rw [parseMembers_run_dirty ps2 k v f
      (',' :: '\n' :: '/' :: '/' :: (cm ++ '\n' :: [Char.ofNat 125]))
      ('\n' :: '/' :: '/' :: (cm ++ '\n' :: [Char.ofNat 125]))
      '/' ('/' :: (cm ++ '\n' :: [Char.ofNat 125]))
      hkv.1 hkv.2 hps2 hfge
      (skipWs_cons_not _ _ (by decide))
      (by
        rw [skipWs_cons_ws _ _ (by decide)]
        exact skipWs_cons_not _ _ (by decide))
      (by decide)]
    rfl

/-- C5 counterexample: the document `\x7b"a": "http://x",\n// note\n\x7d` is
valid JSON except for its trailing comma and its `//` comment line, yet the
tolerant parser returns no value at all, while strict parsing of the same
document with the comment and trailing comma removed succeeds: the comment
regex of `build_index.py:43` also fires on the `//` inside the string value
`http://x` and destroys the member. -/
theorem json_loads_tolerant_claim_counterexample :
    dirtyDoc [("a".toList, "http://x".toList)] " note".toList
        = "\x7b\"a\": \"http://x\",\n// note\n\x7d".toList
      ∧ cleanDoc [("a".toList, "http://x".toList)]
        = "\x7b\"a\": \"http://x\"\n\x7d".toList
      ∧ json_loads_tolerant "\x7b\"a\": \"http://x\",\n// note\n\x7d".toList = none
      ∧ pyJsonLoads "\x7b\"a\": \"http://x\"\n\x7d".toList
        = some (.jobj [("a".toList, JVal.jstr "http://x".toList)]) := by
  refine ⟨by rfl, by rfl, ?_, by rfl⟩
  have hs : pyJsonLoads "\x7b\"a\": \"http://x\",\n// note\n\x7d".toList = none := by rfl
  unfold json_loads_tolerant
  rw [hs]
  have hc : commentSub ['\x7b', '"', 'a', '"', ':', ' ', '"', 'h', 't', 't', 'p', ':', '/', '/',
        'x', '"', ',', '\n', '/', '/', ' ', 'n', 'o', 't', 'e', '\n', '\x7d']
      = ['\x7b', '"', 'a', '"', ':', ' ', '"', 'h', 't', 't', 'p', ':', '\n', '\n', '\x7d'] := by
    simp [commentSub]
  have hcc : commaSub ['\x7b', '"', 'a', '"', ':', ' ', '"', 'h', 't', 't', 'p', ':', '\n', '\n', '\x7d']
      = ['\x7b', '"', 'a', '"', ':', ' ', '"', 'h', 't', 't', 'p', ':', '\n', '\n', '\x7d'] := by
    simp [commaSub, isPyWs]
  show pyJsonLoads (commaSub (commentSub ['\x7b', '"', 'a', '"', ':', ' ', '"', 'h', 't', 't',
    'p', ':', '/', '/', 'x', '"', ',', '\n', '/', '/', ' ', 'n', 'o', 't', 'e', '\n', '\x7d'])) = _
  rw [hc, hcc]
  rfl

/-- C5 (amended): for every flat string-valued manifest body whose keys and
values avoid the characters `"` `\` `/` `,` and control codes, and whose
comment text contains no newline, the tolerant parser applied to the body
with a trailing comma and a `//` comment line returns exactly the strict
parse of the cleaned body, namely the expected object. -/
theorem json_loads_tolerant_amended
    (ps : List (List Char × List Char)) (cm : List Char)
    (hps : ps.all (fun kv => goodStr kv.1 && goodStr kv.2) = true)
    (hnl : cm.all (fun c => c != '\n') = true) :
    json_loads_tolerant (dirtyDoc ps cm) = pyJsonLoads (cleanDoc ps)
      ∧ pyJsonLoads (cleanDoc ps) = some (.jobj (mapJStr ps)) := by
  have hclean : pyJsonLoads (cleanDoc ps) = some (.jobj (mapJStr ps)) := by
    rw [cleanDoc]
    exact pyJsonLoads_flat_obj ps ('\n' :: [Char.ofNat 125]) hps (by
      rw [skipWs_cons_ws _ _ (by decide)]
      exact skipWs_cons_not _ _ (by decide))
  refine ⟨?_, hclean⟩
  unfold json_loads_tolerant
  rw [pyJsonLoads_dirty_none ps cm hps]
  dsimp only
  rw [commentSub_dirty ps cm hps hnl]
  rw [commaSub_whole ps hps]
  rw [pyJsonLoads_flat_obj ps [Char.ofNat 125] hps (skipWs_cons_not _ _ (by decide))]
  rw [hclean]

/-- Witness for the amended C5 theorem at the one-member body
`\x7b"a": "b",\n// note\n\x7d`. -/
theorem json_loads_tolerant_amended_witness :
    ([(("a".toList : List Char), ("b".toList : List Char))].all
        (fun kv => goodStr kv.1 && goodStr kv.2) = true)
      ∧ (" note".toList.all (fun c => c != '\n') = true)
      ∧ (json_loads_tolerant (dirtyDoc [("a".toList, "b".toList)] " note".toList)
          = pyJsonLoads (cleanDoc [("a".toList, "b".toList)])
        ∧ pyJsonLoads (cleanDoc [("a".toList, "b".toList)])
          = some (.jobj (mapJStr [("a".toList, "b".toList)]))) :=
  ⟨by decide, by decide,
    json_loads_tolerant_amended [("a".toList, "b".toList)] " note".toList
      (by decide) (by decide)⟩
